import Mathlib

set_option maxHeartbeats 1000000

/-! Formal model of the MCP configuration template/merge engine
    (src/llm.py and src/main3.py): Python string helpers. -/

/-- Characters treated as whitespace by Python's str.strip family. -/
def isPyWS (c : Char) : Bool :=
  c = ' ' || c = '\t' || c = '\n' || c = '\r' || c = '\x0b' || c = '\x0c'

/-- Python str.rstrip() on a character list. -/
def rstripChars (l : List Char) : List Char := (l.reverse.dropWhile isPyWS).reverse

/-- Python str.rstrip(). -/
def pyRstrip (s : String) : String := String.mk (rstripChars s.data)

/-- Python str.strip(). -/
def pyStrip (s : String) : String := String.mk ((rstripChars s.data).dropWhile isPyWS)

/-- Python str.startswith. -/
def pyStartsWith (s pre : String) : Bool := pre.data.isPrefixOf s.data

/-- A line whose strip() is empty (falsy in Python conditions). -/
def isBlankLine (l : String) : Bool := (pyStrip l).data.isEmpty

/-- The loop: while lines and not lines[-1].strip(): lines.pop(). -/
def dropTrailingBlanks (ls : List String) : List String :=
  (ls.reverse.dropWhile isBlankLine).reverse

/-- Python sep.join(lines). -/
def joinSep (sep : String) : List String → String
  | [] => ""
  | [l] => l
  | l :: ls => l ++ sep ++ joinSep sep ls

/-- Python s.replace(old, rep, 1) on character lists. -/
def replFirstChars (pat rep : List Char) : List Char → List Char
  | [] => []
  | c :: cs =>
    if pat.isPrefixOf (c :: cs) then rep ++ (c :: cs).drop pat.length
    else c :: replFirstChars pat rep cs

/-- Python s.replace(old, rep, 1). -/
def pyReplaceFirst (s old rep : String) : String :=
  String.mk (replFirstChars old.data rep.data s.data)

/-- Python s.split(".")[0] on a character list. -/
def firstSegment (l : List Char) : List Char := l.takeWhile (fun c => c ≠ '.')

/-- Python s.rstrip("]") on a character list. -/
def dropRightBrackets (l : List Char) : List Char :=
  (l.reverse.dropWhile (fun c => c = ']')).reverse

/-! Python dict as an insertion-ordered association list. Assignment d[k] = v
    replaces in place when the key exists, else appends. -/

/-- Lookup in an insertion-ordered association list (Python d[k] / d.get(k)). -/
def alookup {β : Type} (k : String) : List (String × β) → Option β
  | [] => none
  | p :: ps => if p.1 = k then some p.2 else alookup k ps

/-- list(d.keys()). -/
def keysOf {β : Type} (d : List (String × β)) : List String := d.map Prod.fst

/-- Python d[k] = v. -/
def setKey {β : Type} (d : List (String × β)) (k : String) (v : β) : List (String × β) :=
  if (alookup k d).isSome then d.map (fun p => if p.1 = k then (k, v) else p)
  else d ++ [(k, v)]

/-- Python d.update(e). -/
def updateObj {β : Type} (d e : List (String × β)) : List (String × β) :=
  e.foldl (fun acc p => setKey acc p.1 p.2) d

/-! JSON values as decoded by Python's json module: dicts keep insertion order. -/

/-- A decoded JSON value (Python object graph produced by json.load). -/
inductive JValue where
  | str : String → JValue
  | num : Int → JValue
  | bool : Bool → JValue
  | null : JValue
  | arr : List JValue → JValue
  | obj : List (String × JValue) → JValue
deriving Repr

/-! llm.py, load_toml_template: line-oriented parser for OS-qualified
    [os.mcp_servers.name] / [os.mcpServers.name] block tables. -/

/-- The two block-start markers scanned for one OS (llm.py lines 327-329). -/
def osMarkList (os : String) : List String :=
  ["[" ++ os ++ ".mcp_servers.", "[" ++ os ++ ".mcpServers."]

/-- The opposite OS qualifier (llm.py line 328). -/
def otherOsOf (os : String) : String := if os = "windows" then "wsl" else "windows"

/-- First marker of our OS that line.strip() starts with (llm.py lines 336-340). -/
def matchedMark (os line : String) : Option String :=
  (osMarkList os).find? (fun p => pyStartsWith (pyStrip line) p)

/-- Does line.strip() start with a marker of the other OS (llm.py line 365)? -/
def isOtherOsLine (os line : String) : Bool :=
  (osMarkList (otherOsOf os)).any (fun p => pyStartsWith (pyStrip line) p)

/-- Block name extraction: line.strip()[len(mark):].rstrip("]").split(".")[0]
    (llm.py lines 350-352). -/
def extractServerName (mark line : String) : String :=
  String.mk (firstSegment (dropRightBrackets ((pyStrip line).data.drop mark.data.length)))

/-- Parser state: server_order, server_blocks, and the currently open block. -/
structure TomlParseState where
  server_order : List String
  server_blocks : List (String × List String)
  current : Option (String × List String)
deriving Repr

/-- server_blocks[current_name] = current_block when a block is open. -/
def flushCurrent (blocks : List (String × List String)) :
    Option (String × List String) → List (String × List String)
  | some (n, b) => setKey blocks n b
  | none => blocks

/-- One iteration of the line loop of llm.py load_toml_template (lines 332-385).
    The error case is Python's KeyError on server_blocks[current_name]. -/
def tomlStepLLM (os : String) (st : TomlParseState) (line : String) :
    Except String TomlParseState :=
  match matchedMark os line with
  | some p =>
    let blocks := flushCurrent st.server_blocks st.current
    let name := extractServerName p line
    if name ∈ st.server_order then
      match alookup name blocks with
      | some b =>
        let b2 := b ++ [line]
        Except.ok ⟨st.server_order, setKey blocks name b2, some (name, b2)⟩
      | none => Except.error "KeyError"
    else
      Except.ok ⟨st.server_order ++ [name], blocks, some (name, [line])⟩
  | none =>
    match st.current with
    | some (n, b) =>
      if isOtherOsLine os line then
        Except.ok ⟨st.server_order, setKey st.server_blocks n b, none⟩
      else
        Except.ok ⟨st.server_order, st.server_blocks, some (n, b ++ [line])⟩
    | none => Except.ok st

/-- Run the line loop over all lines. -/
def runTomlLines (os : String) : List String → TomlParseState → Except String TomlParseState
  | [], st => Except.ok st
  | l :: ls, st =>
    match tomlStepLLM os st l with
    | Except.ok st2 => runTomlLines os ls st2
    | Except.error e => Except.error e

/-- The template data produced by llm.py for one file and one OS
    (dataclass ServerTemplate, fields relevant to parsing/rendering). -/
structure ServerTemplate where
  os_mode : String
  server_order : List String
  server_blocks : List (String × List String)
  header_lines : List String
deriving Repr

/-- llm.py load_toml_template (lines 317-402), with the file's text given as its
    list of lines. header_lines is never filled by the source (the else branch
    at lines 374-385 is pass), so it is the initial empty list. -/
def load_toml_template_llm (os : String) (ls : List String) : Except String ServerTemplate :=
  match runTomlLines os ls ⟨[], [], none⟩ with
  | Except.error e => Except.error e
  | Except.ok st =>
    Except.ok ⟨os, st.server_order, flushCurrent st.server_blocks st.current, []⟩

/-! llm.py, ServerTemplate.render, TOML branch (lines 161-193). -/

/-- Qualifier stripping of one line: if line.strip().startswith("[os.") then
    line.replace("[os.", "[", 1) else line (llm.py lines 180-185). -/
def stripOsHeaderLine (os line : String) : String :=
  if pyStartsWith (pyStrip line) ("[" ++ os ++ ".") then
    pyReplaceFirst line ("[" ++ os ++ ".") "["
  else line

/-- Lines emitted for one block: each line qualifier-stripped, then one blank
    line if the block is nonempty and its last line is not blank
    (llm.py lines 178-188). -/
def renderBlockLines (os : String) (bl : List String) : List String :=
  bl.map (stripOsHeaderLine os) ++
    (if bl.isEmpty then [] else if isBlankLine (bl.getLastD "") then [] else [""])

/-- Header section: header_lines, followed by one blank line when nonempty with a
    nonblank last line (llm.py lines 163-166). -/
def headerSectionLines (hs : List String) : List String :=
  if hs.isEmpty then []
  else hs ++ (if isBlankLine (hs.getLastD "") then [] else [""])

/-- llm.py ServerTemplate.render, TOML branch: selection-filtered blocks with the
    OS qualifier stripped, trailing blank lines removed, single final newline.
    The error case is Python's KeyError on self.server_blocks[name]. -/
def ServerTemplate.render (t : ServerTemplate) (selected : List String) :
    Except String String := do
  let ordered := t.server_order.filter (fun n => selected.contains n)
  let bls ← ordered.mapM (fun n =>
    match alookup n t.server_blocks with
    | some b => Except.ok (renderBlockLines t.os_mode b)
    | none => Except.error "KeyError")
  Except.ok (joinSep "\n" (dropTrailingBlanks (headerSectionLines t.header_lines ++ bls.flatten)) ++ "\n")

/-- llm.py ServerTemplate.render, JSON branch (lines 147-159), at the decoded
    object level: payload = deepcopy(metadata); container built from the
    selection-filtered server order; payload[container_key] = container.
    Errors are Python's KeyError on servers[name] and the RuntimeError for a
    missing container key. -/
def render_json_llm (metadata : List (String × JValue)) (container_key : Option String)
    (server_order : List String) (server_blocks : List (String × JValue))
    (selected : List String) : Except String (List (String × JValue)) := do
  let ordered := server_order.filter (fun n => selected.contains n)
  let container ← ordered.foldlM (fun acc n =>
    match alookup n server_blocks with
    | some v => Except.ok (setKey acc n v)
    | none => Except.error "KeyError") []
  match container_key with
  | none => Except.error "RuntimeError: JSON template missing container key"
  | some ck => Except.ok (setKey metadata ck (JValue.obj container))

/-- Normalization operator taken from the specification's round-trip law:
    collapse trailing blank lines and enforce a single trailing newline
    (spec section 8), on a document given as its list of lines. -/
def normalizeDoc (ls : List String) : String :=
  joinSep "\n" (dropTrailingBlanks ls) ++ "\n"

/-! main3.py, load_toml_template (lines 764-804): unqualified [mcp_servers.name]
    blocks; no sub-table handling, no OS qualifier; keeps header lines. -/

/-- Block name as taken by main3.py line 777: line[len("[mcp_servers."):].rstrip("]"). -/
def m3BlockName (line : String) : String :=
  String.mk (dropRightBrackets (line.data.drop ("[mcp_servers.".data.length)))

/-- Parser state for main3.py load_toml_template. -/
structure M3TomlState where
  header_lines : List String
  server_blocks : List (String × List String)
  current : Option (String × List String)
deriving Repr

/-- One iteration of the line loop of main3.py load_toml_template (lines 772-787). -/
def m3TomlStep (st : M3TomlState) (line : String) : M3TomlState :=
  match st.current with
  | none =>
    if pyStartsWith line "[mcp_servers." then
      ⟨st.header_lines, st.server_blocks, some (m3BlockName line, [line])⟩
    else
      ⟨st.header_lines ++ [line], st.server_blocks, none⟩
  | some (n, b) =>
    if pyStartsWith line "[mcp_servers." then
      ⟨st.header_lines, setKey st.server_blocks n b, some (m3BlockName line, [line])⟩
    else
      ⟨st.header_lines, st.server_blocks, some (n, b ++ [line])⟩

/-- Template data produced by main3.py load_toml_template. -/
structure M3TomlTemplate where
  header_lines : List String
  server_blocks : List (String × List String)
deriving Repr

/-- main3.py load_toml_template (lines 764-804): run the loop, flush the open
    block, pop trailing blank header lines. -/
def load_toml_template_m3 (ls : List String) : M3TomlTemplate :=
  let st := ls.foldl m3TomlStep ⟨[], [], none⟩
  ⟨dropTrailingBlanks st.header_lines, flushCurrent st.server_blocks st.current⟩

/-! main3.py, load_json_template (lines 733-761), modelling Python's dynamic
    semantics for the container search over an arbitrary decoded value. -/

/-- Python exception classes relevant here. json.JSONDecodeError is a subclass
    of ValueError, so decode failures are valueError. -/
inductive PyErr where
  | valueError : String → PyErr
  | typeError : String → PyErr
  | keyError : String → PyErr
deriving Repr, DecidableEq

/-- Python x == k for a decoded value x and a string k (only str compares equal). -/
def jvalEqStr (x : JValue) (k : String) : Bool :=
  match x with
  | JValue.str s => s = k
  | _ => false

/-- Occurrence of pat as a contiguous sublist of l. -/
def charsInfixOf (pat : List Char) : List Char → Bool
  | [] => pat.isEmpty
  | c :: cs => pat.isPrefixOf (c :: cs) || charsInfixOf pat cs

/-- Substring test, Python sub in s for strings. -/
def strContains (s sub : String) : Bool := charsInfixOf sub.data s.data

/-- Python k in data for a decoded value: dict key test, list membership,
    string substring; TypeError for scalars. -/
def jvalHasKeyPy (data : JValue) (k : String) : Except PyErr Bool :=
  match data with
  | JValue.obj fields => Except.ok (alookup k fields).isSome
  | JValue.arr xs => Except.ok (xs.any (fun x => jvalEqStr x k))
  | JValue.str s => Except.ok (strContains s k)
  | _ => Except.error (PyErr.typeError "argument of type is not iterable")

/-- Python data[k] for a string index: only dicts support it. -/
def jvalGetItemStr (data : JValue) (k : String) : Except PyErr JValue :=
  match data with
  | JValue.obj fields =>
    match alookup k fields with
    | some v => Except.ok v
    | none => Except.error (PyErr.keyError k)
  | _ => Except.error (PyErr.typeError "indices must be integers")

/-- The fixed ordered list of accepted container-key aliases
    (main3.py line 739). -/
def containerAliases : List String := ["mcpServers", "mcp_servers", "mcp"]

/-- The loop: for key in aliases: if key in data: container_key = key; break
    (main3.py lines 738-742). -/
def findContainerKey (data : JValue) : Except PyErr (Option String) :=
  containerAliases.foldlM
    (fun acc k =>
      match acc with
      | some _ => Except.ok acc
      | none => (jvalHasKeyPy data k).map (fun b => if b then some k else none))
    none

/-- Result of main3.py load_json_template: metadata, container key, servers. -/
structure M3JsonTemplate where
  metadata : List (String × JValue)
  container_key : String
  servers : List (String × JValue)
deriving Repr

/-- main3.py load_json_template (lines 733-761), taking the result of
    json.load (error = a json.JSONDecodeError, which Python class-wise is a
    ValueError). -/
def load_json_template_m3 (decoded : Except String JValue) :
    Except PyErr M3JsonTemplate :=
  match decoded with
  | Except.error e => Except.error (PyErr.valueError e)
  | Except.ok data => do
    let ck? ← findContainerKey data
    match ck? with
    | none => Except.error (PyErr.valueError "Could not locate MCP server container")
    | some ck => do
      let servers ← jvalGetItemStr data ck
      match servers with
      | JValue.obj sfields =>
        match data with
        | JValue.obj dfields =>
          Except.ok ⟨dfields.filter (fun p => p.1 ≠ ck), ck, sfields⟩
        | _ =>
          -- unreachable: a string index only succeeds on a dict
          Except.error (PyErr.typeError "indices must be integers")
      | _ => Except.error (PyErr.valueError "Unexpected server container type")

/-! main3.py, load_all_llms_and_servers (lines 807-831). -/

/-- One source file under servers/: a JSON file given by its json.load outcome,
    or a TOML file given by its lines. -/
inductive SrcFile where
  | jsonSrc : Except String JValue → SrcFile
  | tomlSrc : List String → SrcFile

/-- Heterogeneous server payloads accumulated in all_servers:
    JSON configs and TOML line blocks. -/
inductive SVal where
  | jsonCfg : JValue → SVal
  | tomlBlock : List String → SVal
deriving Repr

/-- Loading one file inside the try of load_all_llms_and_servers
    (main3.py lines 818-821): the pair (template-kind, servers found in it). -/
def loadOneSrc (s : SrcFile) : Except PyErr (List (String × SVal)) :=
  match s with
  | SrcFile.jsonSrc d =>
    (load_json_template_m3 d).map (fun t => t.servers.map (fun p => (p.1, SVal.jsonCfg p.2)))
  | SrcFile.tomlSrc ls =>
    Except.ok ((load_toml_template_m3 ls).server_blocks.map (fun p => (p.1, SVal.tomlBlock p.2)))

/-- all_servers merge: if server_name not in all_servers: all_servers[name] = cfg
    (main3.py lines 824-826). -/
def mergeServers (acc servers : List (String × SVal)) : List (String × SVal) :=
  servers.foldl (fun a p => if (alookup p.1 a).isSome then a else a ++ [p]) acc

/-- main3.py load_all_llms_and_servers (lines 807-831): per-file try with
    except ValueError: skip and continue; any other exception escapes the
    loop and aborts the remaining files. Returns the per-file server lists
    that loaded (one entry per loaded template) and the aggregated servers. -/
def load_all_llms_and_servers (srcs : List SrcFile) :
    Except PyErr (List (List (String × SVal)) × List (String × SVal)) :=
  srcs.foldlM
    (fun acc s =>
      match loadOneSrc s with
      | Except.ok servers => Except.ok (acc.1 ++ [servers], mergeServers acc.2 servers)
      | Except.error (PyErr.valueError _) => Except.ok acc
      | Except.error e => Except.error e)
    ([], [])

/-! main3.py, the deploy path (lines 946-1148): building new_servers from the
    catalog, the TOML writer, the JSON read-merge-write, and the per-path
    fan-out. The static MCP_SERVERS_DB catalog is passed in as data, as the
    specification itself treats the catalog (section 6). -/

/-- One catalog entry's config dict. -/
abbrev ServerConfig := List (String × JValue)

/-- The catalog: categories in order, each an ordered list of
    (server_key, config). Only the config field of each DB record is
    consulted by the deploy code. -/
abbrev ServersDb := List (String × List (String × ServerConfig))

/-- config = server_info["config"].copy(); if "type" in config: del config["type"]
    (main3.py lines 1073-1076). -/
def removeTypeField (config : ServerConfig) : ServerConfig :=
  config.filter (fun p => p.1 ≠ "type")

/-- new_servers built by the nested loops over MCP_SERVERS_DB
    (main3.py lines 1069-1077). -/
def buildNewServers (db : ServersDb) (selected : List String) : List (String × ServerConfig) :=
  db.foldl
    (fun acc cat =>
      cat.2.foldl
        (fun acc2 p =>
          if selected.contains p.1 then setKey acc2 p.1 (removeTypeField p.2) else acc2)
        acc)
    []

/-- main3.py _extract_toml_prefix_before_mcp (lines 1000-1013), with the
    destination file given as (Option lines): missing file yields "". -/
def extract_toml_text_before_mcp (old : Option (List String)) : String :=
  match old with
  | none => ""
  | some lines =>
    pyRstrip (joinSep "\n" (lines.takeWhile (fun l => ¬ pyStartsWith (pyStrip l) "[mcp_servers.")))

mutual

/-- Python repr of a decoded JSON scalar, used by the fallback else branch of
    the TOML writer's value formatting. -/
def pyReprJ : JValue → String
  | JValue.str s => "'" ++ s ++ "'"
  | JValue.num n => toString n
  | JValue.bool b => if b then "True" else "False"
  | JValue.null => "None"
  | JValue.arr xs => "[" ++ joinSep ", " (pyReprList xs) ++ "]"
  | JValue.obj _ => "<dict>"

/-- Pointwise repr for list elements. -/
def pyReprList : List JValue → List String
  | [] => []
  | v :: vs => pyReprJ v :: pyReprList vs

end

/-- One key = value line of a TOML server block (main3.py lines 1029-1039). -/
def tomlConfigLine (key : String) (v : JValue) : String :=
  match v with
  | JValue.arr xs =>
    if key = "args" then
      key ++ " = [" ++ joinSep ", " (xs.map (fun a =>
        match a with
        | JValue.str s => "\"" ++ s ++ "\""
        | other => "\"" ++ pyReprJ other ++ "\"")) ++ "]"
    else key ++ " = " ++ pyReprJ (JValue.arr xs)
  | JValue.str s => key ++ " = \"" ++ s ++ "\""
  | JValue.bool b => key ++ " = " ++ (if b then "true" else "false")
  | other => key ++ " = " ++ pyReprJ other

/-- The block text for one server (main3.py lines 1027-1040). -/
def tomlBlockFor (name : String) (config : ServerConfig) : String :=
  joinSep "\n" (("[mcp_servers." ++ name ++ "]") :: config.map (fun p => tomlConfigLine p.1 p.2))

/-- sorted(new_servers.keys()) (main3.py line 1025): Python's sorted on strings
    is ascending code-point lexicographic order, matching String's linear
    order. -/
def sortedServerNames (ns : List (String × ServerConfig)) : List String :=
  List.insertionSort (fun a b => a ≤ b) (keysOf ns)

/-- The per-server blocks in sorted name order (main3.py lines 1024-1040). -/
def tomlBlocksOf (ns : List (String × ServerConfig)) : List (String × String) :=
  (sortedServerNames ns).filterMap (fun k => (alookup k ns).map (fun c => (k, tomlBlockFor k c)))

/-- main3.py _write_toml_mcp_servers (lines 1016-1049): the content written.
    sections = prefix (if any) then the blocks joined by blank lines; empty or
    all-blank sections are dropped, the rest rstripped, joined by blank lines,
    final single newline. -/
def write_toml_mcp_servers (old : Option (List String)) (ns : List (String × ServerConfig)) :
    String :=
  let pre := extract_toml_text_before_mcp old
  let blockStrings := (tomlBlocksOf ns).map Prod.snd
  let sections :=
    (if pre = "" then [] else [pre]) ++
    (if blockStrings.isEmpty then [] else [joinSep "\n\n" blockStrings])
  let filtered := (sections.filter (fun s => decide (¬ s = "" ∧ ¬ pyStrip s = ""))).map pyRstrip
  pyRstrip (joinSep "\n\n" filtered) ++ "\n"

/-- The JSON branch of the per-destination deploy (main3.py lines 1119-1143),
    on the decoded value: find or default the container key, create the
    container if missing, merge new_servers into it with dict.update. Errors
    are the exceptions the per-path except catches: TypeError for a non-dict
    document, AttributeError for a non-dict container. -/
def deployJsonValue (data : JValue) (ns : List (String × ServerConfig)) :
    Except String JValue :=
  match data with
  | JValue.obj fields =>
    let ck := ((containerAliases.find? (fun k => (alookup k fields).isSome)).getD "mcpServers")
    let fields1 := if (alookup ck fields).isSome then fields else setKey fields ck (JValue.obj [])
    match alookup ck fields1 with
    | some (JValue.obj container) =>
      Except.ok (JValue.obj (setKey fields1 ck
        (JValue.obj (updateObj container (ns.map (fun p => (p.1, JValue.obj p.2)))))))
    | some _ => Except.error "AttributeError: update"
    | none => Except.error "unreachable"
  | _ =>
    -- any non-dict document ends in a TypeError on key test, item assignment
    -- or string/list indexing before json.dump is reached
    Except.error "TypeError"

/-- One physical destination: a JSON path with its file's state (missing, or
    the json.load outcome), or a TOML path with its lines; ioError models a
    mkdir/read/write OSError on this path. -/
inductive Dest where
  | jsonDest : Option (Except String JValue) → Bool → Dest
  | tomlDest : Option (List String) → Bool → Dest

/-- Per-path outcome recorded by the loop (the checkmark or cross print). -/
inductive DeployOutcome where
  | wroteJson : JValue → DeployOutcome
  | wroteToml : String → DeployOutcome
  | failed : String → DeployOutcome
deriving Repr

/-- The body of the per-path try in deploy_config_to_app_locations
    (main3.py lines 1106-1148): every exception is caught by the
    except at line 1147 and recorded as a failure for this path only. -/
def deployOnePath (ns : List (String × ServerConfig)) (d : Dest) : DeployOutcome :=
  match d with
  | Dest.tomlDest old io =>
    if io then DeployOutcome.failed "OSError"
    else DeployOutcome.wroteToml (write_toml_mcp_servers old ns)
  | Dest.jsonDest old io =>
    if io then DeployOutcome.failed "OSError"
    else
      match old with
      | none =>
        match deployJsonValue (JValue.obj []) ns with
        | Except.ok v => DeployOutcome.wroteJson v
        | Except.error e => DeployOutcome.failed e
      | some (Except.error e) => DeployOutcome.failed e
      | some (Except.ok data) =>
        match deployJsonValue data ns with
        | Except.ok v => DeployOutcome.wroteJson v
        | Except.error e => DeployOutcome.failed e

/-- The destination loop of deploy_config_to_app_locations over the resolved
    target paths: strictly sequential, one recorded outcome per path, never
    raising past a path. -/
def deploy_config_to_app_locations (ns : List (String × ServerConfig)) (dests : List Dest) :
    List DeployOutcome :=
  dests.map (deployOnePath ns)

/-- An excerpt of the static MCP_SERVERS_DB catalog (main3.py lines 170-188,
    Code and Version Control category), config dicts copied verbatim; the
    deploy functions take the catalog as data, as the specification itself
    treats it (sections 1 and 6). -/
def dbSample : ServersDb :=
  [("Code & Version Control",
    [("github",
      [("type", JValue.str "stdio"), ("command", JValue.str "docker"),
       ("args", JValue.arr [JValue.str "run", JValue.str "-i", JValue.str "--rm",
         JValue.str "-e", JValue.str "GITHUB_PERSONAL_ACCESS_TOKEN",
         JValue.str "ghcr.io/github/github-mcp-server"])]),
     ("git",
      [("type", JValue.str "stdio"), ("command", JValue.str "npx"),
       ("args", JValue.arr [JValue.str "@modelcontextprotocol/server-git"])]),
     ("gitlab",
      [("type", JValue.str "stdio"), ("command", JValue.str "npx"),
       ("args", JValue.arr [JValue.str "@modelcontextprotocol/server-gitlab"])])])]

/-! A structured family of TOML source documents used to state the round-trip
    law: a concatenation of qualified blocks for one OS. -/

/-- The source section-header line of a block for the given OS qualifier. -/
def mkOsHeader (os name : String) : String := "[" ++ os ++ ".mcp_servers." ++ name ++ "]"

/-- A document that is a concatenation of qualified blocks (header then body). -/
def docOfBlocks (os : String) (blks : List (String × List String)) : List String :=
  (blks.map (fun b => mkOsHeader os b.1 :: b.2)).flatten

/-- The same document with the OS qualifier stripped from each header line,
    as ServerTemplate.render emits it. -/
def strippedDocOfBlocks (blks : List (String × List String)) : List String :=
  (blks.map (fun b => ("[mcp_servers." ++ b.1 ++ "]") :: b.2)).flatten

/-- A block name that interacts as intended with the parser's marker matching,
    name extraction and render's qualifier stripping (decidable, so concrete
    instances are checked by evaluation). -/
def goodName (os name : String) : Bool :=
  (matchedMark os (mkOsHeader os name) == some ("[" ++ os ++ ".mcp_servers.")) &&
  (extractServerName ("[" ++ os ++ ".mcp_servers.") (mkOsHeader os name) == name) &&
  pyStartsWith (pyStrip (mkOsHeader os name)) ("[" ++ os ++ ".") &&
  (pyReplaceFirst (mkOsHeader os name) ("[" ++ os ++ ".") "[" == "[mcp_servers." ++ name ++ "]")

/-- A body line that neither opens a block of either OS nor gets
    qualifier-stripped by render. -/
def inertLine (os l : String) : Bool :=
  (matchedMark os l).isNone && !(isOtherOsLine os l) &&
    !(pyStartsWith (pyStrip l) ("[" ++ os ++ "."))

/-! Lemmas about the Python-dict model. -/

theorem alookup_isSome_iff_mem {β : Type} (k : String) (d : List (String × β)) :
    (alookup k d).isSome ↔ k ∈ keysOf d := by
  induction d with
  | nil => simp [alookup, keysOf]
  | cons p ps ih =>
    by_cases h : p.1 = k
    · simp [alookup, keysOf, h]
    · simp only [alookup, keysOf, List.map_cons, List.mem_cons, if_neg h]
      rw [ih]
      constructor
      · exact fun hm => Or.inr hm
      · rintro (rfl | hm)
        · exact absurd rfl h
        · exact hm

theorem alookup_eq_none_of_not_mem {β : Type} {k : String} {d : List (String × β)}
    (h : k ∉ keysOf d) : alookup k d = none := by
  have := (alookup_isSome_iff_mem k d).not.mpr h
  cases hx : alookup k d with
  | none => rfl
  | some v => rw [hx] at this; simp at this

theorem setKey_of_not_mem {β : Type} {k : String} {d : List (String × β)} (v : β)
    (h : k ∉ keysOf d) : setKey d k v = d ++ [(k, v)] := by
  unfold setKey
  rw [alookup_eq_none_of_not_mem h]
  rfl

theorem keysOf_setKey_of_mem {β : Type} {k : String} {d : List (String × β)} (v : β)
    (h : k ∈ keysOf d) : keysOf (setKey d k v) = keysOf d := by
  unfold setKey
  rw [if_pos ((alookup_isSome_iff_mem k d).mpr h)]
  unfold keysOf
  rw [List.map_map]
  apply List.map_congr_left
  intro p _
  by_cases hp : p.1 = k
  · simp [Function.comp, hp]
  · simp [Function.comp, hp]

theorem keysOf_setKey_of_not_mem {β : Type} {k : String} {d : List (String × β)} (v : β)
    (h : k ∉ keysOf d) : keysOf (setKey d k v) = keysOf d ++ [k] := by
  rw [setKey_of_not_mem v h]
  simp [keysOf]

theorem alookup_setKey_self {β : Type} (k : String) (d : List (String × β)) (v : β) :
    alookup k (setKey d k v) = some v := by
  unfold setKey
  by_cases h : (alookup k d).isSome
  · rw [if_pos h]
    induction d with
    | nil => simp [alookup] at h
    | cons p ps ih =>
      by_cases hp : p.1 = k
      · simp [alookup, hp]
      · simp only [alookup, if_neg hp] at h
        simpa [alookup, hp] using ih h
  · rw [if_neg h]
    induction d with
    | nil => simp [alookup]
    | cons p ps ih =>
      by_cases hp : p.1 = k
      · simp [alookup, hp] at h
      · simp only [alookup, if_neg hp] at h
        simpa [alookup, hp] using ih h

theorem alookup_map_replace {β : Type} {j k : String} (v : β) (d : List (String × β))
    (h : j ≠ k) :
    alookup j (d.map (fun p => if p.1 = k then (k, v) else p)) = alookup j d := by
  induction d with
  | nil => rfl
  | cons p ps ih =>
    by_cases hp : p.1 = k
    · have hkj : ¬ (k = j) := fun hkj => h hkj.symm
      simp [alookup, hp, hkj, ih]
    · simp only [List.map_cons, alookup, if_neg hp]
      by_cases hpj : p.1 = j
      · simp [hpj]
      · simp [hpj, ih]

theorem alookup_append_single_ne {β : Type} {j k : String} (v : β) (d : List (String × β))
    (h : j ≠ k) : alookup j (d ++ [(k, v)]) = alookup j d := by
  induction d with
  | nil =>
    have hkj : ¬ (k = j) := fun hkj => h hkj.symm
    simp [alookup, hkj]
  | cons p ps ih =>
    by_cases hpj : p.1 = j
    · simp [alookup, hpj]
    · simp [alookup, hpj, ih]

theorem alookup_setKey_ne {β : Type} {j k : String} (d : List (String × β)) (v : β)
    (h : j ≠ k) : alookup j (setKey d k v) = alookup j d := by
  unfold setKey
  by_cases hs : (alookup k d).isSome
  · rw [if_pos hs]
    exact alookup_map_replace v d h
  · rw [if_neg hs]
    exact alookup_append_single_ne v d h

theorem keysOf_append {β : Type} (d e : List (String × β)) :
    keysOf (d ++ e) = keysOf d ++ keysOf e := by
  simp [keysOf]

theorem keysOf_cons {β : Type} (p : String × β) (ps : List (String × β)) :
    keysOf (p :: ps) = p.1 :: keysOf ps := rfl

theorem keysOf_updateObj {β : Type} (d e : List (String × β))
    (he : (keysOf e).Nodup) :
    keysOf (updateObj d e) = keysOf d ++ (keysOf e).filter (fun k => decide (k ∉ keysOf d)) := by
  induction e generalizing d with
  | nil => simp [updateObj, keysOf]
  | cons p ps ih =>
    have hps : (keysOf ps).Nodup := by
      simpa [keysOf] using he.of_cons
    have hp1 : p.1 ∉ keysOf ps := by
      have : p.1 ∉ (keysOf ps) := by
        intro hmem
        simp only [keysOf, List.map_cons, List.nodup_cons] at he
        exact he.1 hmem
      exact this
    have step : updateObj d (p :: ps) = updateObj (setKey d p.1 p.2) ps := by
      simp [updateObj]
    rw [step, ih _ hps]
    by_cases hm : p.1 ∈ keysOf d
    · rw [keysOf_setKey_of_mem _ hm]
      have : (keysOf (p :: ps)).filter (fun k => decide (k ∉ keysOf d)) =
          (keysOf ps).filter (fun k => decide (k ∉ keysOf d)) := by
        rw [keysOf_cons, List.filter_cons]
        simp [hm]
      rw [this]
    · rw [keysOf_setKey_of_not_mem _ hm]
      have hfil : (keysOf (p :: ps)).filter (fun k => decide (k ∉ keysOf d)) =
          p.1 :: (keysOf ps).filter (fun k => decide (k ∉ keysOf d)) := by
        rw [keysOf_cons, List.filter_cons]
        simp [hm]
      rw [hfil]
      have hcongr : (keysOf ps).filter (fun k => decide (k ∉ keysOf d ++ [p.1])) =
          (keysOf ps).filter (fun k => decide (k ∉ keysOf d)) := by
        apply List.filter_congr
        intro k hk
        have hkp : k ≠ p.1 := fun hkp => hp1 (hkp ▸ hk)
        simp [hkp]
      rw [hcongr]
      simp

theorem alookup_updateObj_of_not_mem {β : Type} {k : String} :
    ∀ (e d : List (String × β)), k ∉ keysOf e → alookup k (updateObj d e) = alookup k d
  | [], d, _ => by simp [updateObj]
  | p :: ps, d, h => by
    have hk : k ∉ keysOf ps := by
      intro hm
      exact h (by rw [keysOf_cons]; exact List.mem_cons_of_mem _ hm)
    have hkp : k ≠ p.1 := by
      intro hkp
      exact h (by rw [keysOf_cons, hkp]; exact List.mem_cons_self _ _)
    have step : updateObj d (p :: ps) = updateObj (setKey d p.1 p.2) ps := by
      simp [updateObj]
    rw [step, alookup_updateObj_of_not_mem ps _ hk, alookup_setKey_ne _ _ hkp]

theorem alookup_updateObj_of_mem {β : Type} {k : String} {v : β} :
    ∀ (e d : List (String × β)), (keysOf e).Nodup → alookup k e = some v →
      alookup k (updateObj d e) = some v
  | [], _, _, h => by simp [alookup] at h
  | p :: ps, d, he, h => by
    have hps : (keysOf ps).Nodup := by
      rw [keysOf_cons] at he
      exact he.of_cons
    have step : updateObj d (p :: ps) = updateObj (setKey d p.1 p.2) ps := by
      simp [updateObj]
    rw [step]
    by_cases hp : p.1 = k
    · have hv : v = p.2 := by
        simp [alookup, hp] at h
        exact h.symm
      have hk : k ∉ keysOf ps := by
        rw [keysOf_cons] at he
        rw [← hp]
        exact (List.nodup_cons.mp he).1
      rw [alookup_updateObj_of_not_mem ps _ hk, hv, ← hp, alookup_setKey_self]
    · have h2 : alookup k ps = some v := by simpa [alookup, hp] using h
      exact alookup_updateObj_of_mem ps _ hps h2

theorem alookup_perm {β : Type} {d₁ d₂ : List (String × β)} (hp : d₁.Perm d₂)
    (hn : (keysOf d₁).Nodup) (k : String) : alookup k d₁ = alookup k d₂ := by
  induction hp with
  | nil => rfl
  | @cons p l₁ l₂ h ih =>
    have hn' : (keysOf l₁).Nodup := by
      rw [keysOf_cons] at hn
      exact hn.of_cons
    by_cases hpk : p.1 = k
    · simp [alookup, hpk]
    · simpa [alookup, hpk] using ih hn'
  | @swap p q t =>
    have hqp : q.1 ≠ p.1 := by
      rw [keysOf_cons, keysOf_cons] at hn
      exact fun h => (List.nodup_cons.mp hn).1 (h ▸ List.mem_cons_self _ _)
    by_cases hq : q.1 = k
    · have hpk : p.1 ≠ k := fun hpk => hqp (hq.trans hpk.symm)
      simp [alookup, hq, hpk]
    · by_cases hpk : p.1 = k
      · simp [alookup, hq, hpk]
      · simp [alookup, hq, hpk]
  | @trans l₁ l₂ l₃ h₁ h₂ ih₁ ih₂ =>
    have hn₂ : (keysOf l₂).Nodup := ((h₁.map Prod.fst).nodup_iff).mp hn
    rw [ih₁ hn, ih₂ hn₂]

/-! String helper lemmas. -/

theorem dropWhile_idem {α : Type} (p : α → Bool) (l : List α) :
    (l.dropWhile p).dropWhile p = l.dropWhile p := by
  induction l with
  | nil => rfl
  | cons c cs ih =>
    by_cases h : p c
    · simp [List.dropWhile, h, ih]
    · simp [List.dropWhile, h]

theorem rstripChars_idem (l : List Char) : rstripChars (rstripChars l) = rstripChars l := by
  unfold rstripChars
  rw [List.reverse_reverse, dropWhile_idem]

theorem pyRstrip_idem (s : String) : pyRstrip (pyRstrip s) = pyRstrip s := by
  unfold pyRstrip
  rw [String.data, rstripChars_idem]

theorem joinSep_singleton (sep l : String) : joinSep sep [l] = l := rfl

/-! Invariants of the llm.py TOML parser: the state never loses a block that
    server_order mentions, so the sub-table branch's dict indexing never
    raises, server_order stays duplicate-free, and every ordered name ends up
    with an entry in server_blocks. -/

theorem isSome_alookup_setKey {β : Type} {n : String} (d : List (String × β)) (k : String)
    (v : β) (h : (alookup n d).isSome) : (alookup n (setKey d k v)).isSome := by
  by_cases hk : n = k
  · rw [hk, alookup_setKey_self]; rfl
  · rw [alookup_setKey_ne _ _ hk]; exact h

theorem nodup_keysOf_setKey {β : Type} {d : List (String × β)} (k : String) (v : β)
    (h : (keysOf d).Nodup) : (keysOf (setKey d k v)).Nodup := by
  by_cases hm : k ∈ keysOf d
  · rw [keysOf_setKey_of_mem _ hm]; exact h
  · rw [keysOf_setKey_of_not_mem _ hm]
    simp [List.nodup_append, h, hm]

theorem isSome_alookup_flushCurrent {n : String} (blocks : List (String × List String))
    (cur : Option (String × List String)) (h : (alookup n blocks).isSome) :
    (alookup n (flushCurrent blocks cur)).isSome := by
  cases cur with
  | none => exact h
  | some p => exact isSome_alookup_setKey _ _ _ h

/-- The loop invariant of llm.py load_toml_template. -/
def TomlInv (st : TomlParseState) : Prop :=
  st.server_order.Nodup ∧
  ∀ n ∈ st.server_order,
    (alookup n st.server_blocks).isSome ∨ ∃ b, st.current = some (n, b)

theorem tomlInv_lookup_flush {st : TomlParseState} (hinv : TomlInv st) {n : String}
    (hn : n ∈ st.server_order) :
    (alookup n (flushCurrent st.server_blocks st.current)).isSome := by
  rcases hinv.2 n hn with h | ⟨b, hb⟩
  · exact isSome_alookup_flushCurrent _ _ h
  · rw [hb]
    unfold flushCurrent
    rw [alookup_setKey_self]
    rfl

theorem tomlStepLLM_eq_mark_sub {os line p : String}
    {o : List String} {bl : List (String × List String)}
    {cur : Option (String × List String)} {b : List String}
    (hm : matchedMark os line = some p)
    (hmem : extractServerName p line ∈ o)
    (hb : alookup (extractServerName p line) (flushCurrent bl cur) = some b) :
    tomlStepLLM os ⟨o, bl, cur⟩ line =
      Except.ok ⟨o, setKey (flushCurrent bl cur) (extractServerName p line) (b ++ [line]),
        some (extractServerName p line, b ++ [line])⟩ := by
  simp only [tomlStepLLM, hm]
  rw [if_pos hmem, hb]

theorem tomlStepLLM_eq_mark_new {os line p : String}
    {o : List String} {bl : List (String × List String)}
    {cur : Option (String × List String)}
    (hm : matchedMark os line = some p)
    (hmem : extractServerName p line ∉ o) :
    tomlStepLLM os ⟨o, bl, cur⟩ line =
      Except.ok ⟨o ++ [extractServerName p line], flushCurrent bl cur,
        some (extractServerName p line, [line])⟩ := by
  simp only [tomlStepLLM, hm]
  rw [if_neg hmem]

theorem tomlStepLLM_eq_other {os line : String}
    {o : List String} {bl : List (String × List String)} {n : String} {b : List String}
    (hm : matchedMark os line = none)
    (hoth : isOtherOsLine os line = true) :
    tomlStepLLM os ⟨o, bl, some (n, b)⟩ line = Except.ok ⟨o, setKey bl n b, none⟩ := by
  simp only [tomlStepLLM, hm, hoth]
  rfl

theorem tomlStepLLM_eq_body {os line : String}
    {o : List String} {bl : List (String × List String)} {n : String} {b : List String}
    (hm : matchedMark os line = none)
    (hoth : isOtherOsLine os line = false) :
    tomlStepLLM os ⟨o, bl, some (n, b)⟩ line = Except.ok ⟨o, bl, some (n, b ++ [line])⟩ := by
  simp only [tomlStepLLM, hm, hoth]
  rfl

theorem tomlStepLLM_eq_skip {os line : String}
    {o : List String} {bl : List (String × List String)}
    (hm : matchedMark os line = none) :
    tomlStepLLM os ⟨o, bl, none⟩ line = Except.ok ⟨o, bl, none⟩ := by
  simp only [tomlStepLLM, hm]

theorem tomlStepLLM_ok (os line : String) (st : TomlParseState) (hinv : TomlInv st) :
    ∃ st2, tomlStepLLM os st line = Except.ok st2 ∧ TomlInv st2 := by
  obtain ⟨o, bl, cur⟩ := st
  cases hm : matchedMark os line with
  | some p =>
    by_cases hmem : extractServerName p line ∈ o
    · have hlook := tomlInv_lookup_flush hinv hmem
      cases hb : alookup (extractServerName p line) (flushCurrent bl cur) with
      | none => rw [hb] at hlook; simp at hlook
      | some b =>
        refine ⟨_, tomlStepLLM_eq_mark_sub hm hmem hb, hinv.1, ?_⟩
        intro n hn
        by_cases hne : n = extractServerName p line
        · exact Or.inr ⟨b ++ [line], by rw [hne]⟩
        · left
          exact isSome_alookup_setKey _ _ _ (tomlInv_lookup_flush hinv hn)
    · refine ⟨_, tomlStepLLM_eq_mark_new hm hmem, ?_, ?_⟩
      · simp [List.nodup_append, hinv.1, hmem]
      · intro n hn
        rcases List.mem_append.mp hn with h | h
        · exact Or.inl (tomlInv_lookup_flush hinv h)
        · have hne : n = extractServerName p line := by simpa using h
          exact Or.inr ⟨[line], by rw [hne]⟩
  | none =>
    cases cur with
    | none => exact ⟨_, tomlStepLLM_eq_skip hm, hinv⟩
    | some nb =>
      obtain ⟨n0, b0⟩ := nb
      cases hoth : isOtherOsLine os line with
      | true =>
        refine ⟨_, tomlStepLLM_eq_other hm hoth, hinv.1, ?_⟩
        intro n hn
        left
        rcases hinv.2 n hn with h | ⟨b, hb⟩
        · exact isSome_alookup_setKey _ _ _ h
        · simp only [] at hb
          cases hb
          rw [alookup_setKey_self]
          rfl
      | false =>
        refine ⟨_, tomlStepLLM_eq_body hm hoth, hinv.1, ?_⟩
        intro n hn
        rcases hinv.2 n hn with h | ⟨b, hb⟩
        · exact Or.inl h
        · simp only [] at hb
          cases hb
          exact Or.inr ⟨b0 ++ [line], by simp⟩

theorem runTomlLines_ok (os : String) :
    ∀ (ls : List String) (st : TomlParseState), TomlInv st →
      ∃ st2, runTomlLines os ls st = Except.ok st2 ∧ TomlInv st2
  | [], st, hinv => ⟨st, rfl, hinv⟩
  | l :: ls, st, hinv => by
    obtain ⟨st1, hstep, hinv1⟩ := tomlStepLLM_ok os l st hinv
    obtain ⟨st2, hrun, hinv2⟩ := runTomlLines_ok os ls st1 hinv1
    exact ⟨st2, by simp [runTomlLines, hstep, hrun], hinv2⟩

theorem load_toml_template_llm_ok (os : String) (ls : List String) :
    ∃ t, load_toml_template_llm os ls = Except.ok t ∧ t.server_order.Nodup ∧
      ∀ n ∈ t.server_order, (alookup n t.server_blocks).isSome := by
  obtain ⟨st, hrun, hinv⟩ := runTomlLines_ok os ls ⟨[], [], none⟩ ⟨List.nodup_nil, by simp⟩
  refine ⟨⟨os, st.server_order, flushCurrent st.server_blocks st.current, []⟩, ?_, hinv.1, ?_⟩
  · unfold load_toml_template_llm
    rw [hrun]
  · intro n hn
    exact tomlInv_lookup_flush hinv hn

theorem m3TomlStep_keys_nodup (st : M3TomlState) (line : String)
    (h : (keysOf st.server_blocks).Nodup) :
    (keysOf ((m3TomlStep st line).server_blocks)).Nodup := by
  obtain ⟨hd, bl, cur⟩ := st
  unfold m3TomlStep
  cases cur with
  | none =>
    by_cases hs : pyStartsWith line "[mcp_servers."
    · simpa [hs] using h
    · simpa [hs] using h
  | some nb =>
    obtain ⟨n, b⟩ := nb
    by_cases hs : pyStartsWith line "[mcp_servers."
    · simpa [hs] using nodup_keysOf_setKey _ _ h
    · simpa [hs] using h

theorem m3_foldl_keys_nodup :
    ∀ (ls : List String) (st : M3TomlState), (keysOf st.server_blocks).Nodup →
      (keysOf ((ls.foldl m3TomlStep st).server_blocks)).Nodup
  | [], _, h => h
  | l :: ls, st, h => m3_foldl_keys_nodup ls (m3TomlStep st l) (m3TomlStep_keys_nodup st l h)

theorem load_toml_template_m3_keys_nodup (ls : List String) :
    (keysOf (load_toml_template_m3 ls).server_blocks).Nodup := by
  unfold load_toml_template_m3
  have h := m3_foldl_keys_nodup ls ⟨[], [], none⟩ List.nodup_nil
  cases hc : (ls.foldl m3TomlStep ⟨[], [], none⟩).current with
  | none => simpa [flushCurrent, hc] using h
  | some nb =>
    obtain ⟨n, b⟩ := nb
    simpa [flushCurrent, hc] using nodup_keysOf_setKey _ _ h

/-! Behaviour of the llm.py TOML parser on structured documents. -/

theorem inertLine_facts {os l : String} (h : inertLine os l = true) :
    matchedMark os l = none ∧ isOtherOsLine os l = false ∧
      pyStartsWith (pyStrip l) ("[" ++ os ++ ".") = false := by
  simp only [inertLine, Bool.and_eq_true, Bool.not_eq_true', Option.isNone_iff_eq_none] at h
  exact ⟨h.1.1, h.1.2, h.2⟩

theorem goodName_facts {os name : String} (h : goodName os name = true) :
    matchedMark os (mkOsHeader os name) = some ("[" ++ os ++ ".mcp_servers.") ∧
    extractServerName ("[" ++ os ++ ".mcp_servers.") (mkOsHeader os name) = name ∧
    pyStartsWith (pyStrip (mkOsHeader os name)) ("[" ++ os ++ ".") = true ∧
    pyReplaceFirst (mkOsHeader os name) ("[" ++ os ++ ".") "[" = "[mcp_servers." ++ name ++ "]" := by
  simp only [goodName, Bool.and_eq_true, beq_iff_eq] at h
  exact ⟨h.1.1.1, h.1.1.2, h.1.2, h.2⟩

theorem runTomlLines_cons_ok {os l : String} {ls : List String} {st st2 : TomlParseState}
    (h : tomlStepLLM os st l = Except.ok st2) :
    runTomlLines os (l :: ls) st = runTomlLines os ls st2 := by
  have heq : runTomlLines os (l :: ls) st =
      match tomlStepLLM os st l with
      | Except.ok st2 => runTomlLines os ls st2
      | Except.error e => Except.error e := rfl
  rw [heq, h]

theorem runTomlLines_body (os : String) :
    ∀ (body : List String), (∀ l ∈ body, inertLine os l = true) →
    ∀ (rest o : List String) (bl : List (String × List String)) (n : String) (b : List String),
      runTomlLines os (body ++ rest) ⟨o, bl, some (n, b)⟩ =
        runTomlLines os rest ⟨o, bl, some (n, b ++ body)⟩
  | [], _, rest, o, bl, n, b => by simp
  | l :: ls, h, rest, o, bl, n, b => by
    obtain ⟨hm, hoth, _⟩ := inertLine_facts (h l (List.mem_cons_self _ _))
    rw [List.cons_append, runTomlLines_cons_ok (tomlStepLLM_eq_body hm hoth),
      runTomlLines_body os ls (fun x hx => h x (List.mem_cons_of_mem _ hx)) rest o bl n (b ++ [l])]
    simp

theorem runTomlLines_skipAll (os : String) :
    ∀ (ls : List String), (∀ l ∈ ls, matchedMark os l = none) →
    ∀ (o : List String) (bl : List (String × List String)),
      runTomlLines os ls ⟨o, bl, none⟩ = Except.ok ⟨o, bl, none⟩
  | [], _, _, _ => rfl
  | l :: ls, h, o, bl => by
    rw [runTomlLines_cons_ok (tomlStepLLM_eq_skip (h l (List.mem_cons_self _ _)))]
    exact runTomlLines_skipAll os ls (fun x hx => h x (List.mem_cons_of_mem _ hx)) o bl

theorem runTomlLines_block {os name : String} (body rest : List String)
    (o : List String) (bl : List (String × List String)) (cur : Option (String × List String))
    (hgood : goodName os name = true)
    (hfresh : name ∉ o)
    (hbody : ∀ l ∈ body, inertLine os l = true) :
    runTomlLines os ((mkOsHeader os name :: body) ++ rest) ⟨o, bl, cur⟩ =
      runTomlLines os rest
        ⟨o ++ [name], flushCurrent bl cur, some (name, mkOsHeader os name :: body)⟩ := by
  obtain ⟨hm, hex, _, _⟩ := goodName_facts hgood
  have hstep := @tomlStepLLM_eq_mark_new os (mkOsHeader os name)
    ("[" ++ os ++ ".mcp_servers.") o bl cur hm (by rw [hex]; exact hfresh)
  rw [hex] at hstep
  rw [List.cons_append, runTomlLines_cons_ok hstep,
    runTomlLines_body os body hbody rest _ _ _ _]
  simp

theorem runTomlLines_doc (os : String) :
    ∀ (blks : List (String × List String)) (o : List String)
      (bl : List (String × List String)) (cur : Option (String × List String)),
      (∀ b ∈ blks, goodName os b.1 = true) →
      (∀ b ∈ blks, ∀ l ∈ b.2, inertLine os l = true) →
      (blks.map Prod.fst).Nodup →
      (∀ b ∈ blks, b.1 ∉ o) →
      (∀ b ∈ blks, b.1 ∉ keysOf (flushCurrent bl cur)) →
      ∃ stf, runTomlLines os (docOfBlocks os blks) ⟨o, bl, cur⟩ = Except.ok stf ∧
        stf.server_order = o ++ blks.map Prod.fst ∧
        flushCurrent stf.server_blocks stf.current =
          flushCurrent bl cur ++ blks.map (fun b => (b.1, mkOsHeader os b.1 :: b.2))
  | [], o, bl, cur, _, _, _, _, _ =>
    ⟨⟨o, bl, cur⟩, by simp [docOfBlocks, runTomlLines], by simp, by simp⟩
  | b :: rest, o, bl, cur, hgood, hbody, hnd, ho, hbl => by
    have hdoc : docOfBlocks os (b :: rest) =
        (mkOsHeader os b.1 :: b.2) ++ docOfBlocks os rest := by
      simp [docOfBlocks]
    have hb1 : b.1 ∉ keysOf (flushCurrent bl cur) := hbl b (List.mem_cons_self _ _)
    have hhead : b.1 ∉ (rest.map Prod.fst) := by
      have := hnd
      simp only [List.map_cons, List.nodup_cons] at this
      exact this.1
    have hstep := @runTomlLines_block os b.1 b.2 (docOfBlocks os rest) o bl cur
      (hgood b (List.mem_cons_self _ _)) (ho b (List.mem_cons_self _ _))
      (hbody b (List.mem_cons_self _ _))
    obtain ⟨stf, hrun, hord, hfl⟩ := runTomlLines_doc os rest (o ++ [b.1])
      (flushCurrent bl cur) (some (b.1, mkOsHeader os b.1 :: b.2))
      (fun x hx => hgood x (List.mem_cons_of_mem _ hx))
      (fun x hx => hbody x (List.mem_cons_of_mem _ hx))
      (by simpa using hnd.of_cons)
      (by
        intro x hx
        intro hmem
        rcases List.mem_append.mp hmem with h | h
        · exact ho x (List.mem_cons_of_mem _ hx) h
        · have hxb : x.1 = b.1 := by simpa using h
          exact hhead (hxb ▸ List.mem_map_of_mem Prod.fst hx))
      (by
        intro x hx
        have hflush : flushCurrent (flushCurrent bl cur) (some (b.1, mkOsHeader os b.1 :: b.2)) =
            flushCurrent bl cur ++ [(b.1, mkOsHeader os b.1 :: b.2)] := by
          unfold flushCurrent
          exact setKey_of_not_mem _ hb1
        rw [hflush, keysOf_append]
        intro hmem
        rcases List.mem_append.mp hmem with h | h
        · exact hbl x (List.mem_cons_of_mem _ hx) h
        · have hxb : x.1 = b.1 := by simpa [keysOf] using h
          exact hhead (hxb ▸ List.mem_map_of_mem Prod.fst hx))
    refine ⟨stf, ?_, ?_, ?_⟩
    · rw [hdoc, hstep, hrun]
    · rw [hord]
      simp
    · rw [hfl]
      have hflush : flushCurrent (flushCurrent bl cur) (some (b.1, mkOsHeader os b.1 :: b.2)) =
          flushCurrent bl cur ++ [(b.1, mkOsHeader os b.1 :: b.2)] := by
        unfold flushCurrent
        exact setKey_of_not_mem _ hb1
      rw [hflush]
      simp

theorem load_toml_template_llm_docOfBlocks (os : String) (blks : List (String × List String))
    (hgood : ∀ b ∈ blks, goodName os b.1 = true)
    (hbody : ∀ b ∈ blks, ∀ l ∈ b.2, inertLine os l = true)
    (hnd : (blks.map Prod.fst).Nodup) :
    load_toml_template_llm os (docOfBlocks os blks) =
      Except.ok ⟨os, blks.map Prod.fst,
        blks.map (fun b => (b.1, mkOsHeader os b.1 :: b.2)), []⟩ := by
  obtain ⟨stf, hrun, hord, hfl⟩ := runTomlLines_doc os blks [] [] none hgood hbody hnd
    (by simp) (by simp [flushCurrent, keysOf])
  unfold load_toml_template_llm
  rw [hrun]
  show Except.ok (⟨os, stf.server_order, flushCurrent stf.server_blocks stf.current, []⟩ :
      ServerTemplate) =
    Except.ok (⟨os, blks.map Prod.fst,
      blks.map (fun b => (b.1, mkOsHeader os b.1 :: b.2)), []⟩ : ServerTemplate)
  rw [hord, hfl]
  simp [flushCurrent]

/-! Behaviour of llm.py ServerTemplate.render on parsed structured documents. -/

theorem stripOsHeaderLine_inert {os l : String}
    (h : pyStartsWith (pyStrip l) ("[" ++ os ++ ".") = false) :
    stripOsHeaderLine os l = l := by
  unfold stripOsHeaderLine
  rw [h]
  simp

theorem renderBlockLines_doc {os name : String} {body : List String}
    (hgood : goodName os name = true)
    (hbody : ∀ l ∈ body, inertLine os l = true) :
    renderBlockLines os (mkOsHeader os name :: body) =
      (("[mcp_servers." ++ name ++ "]") :: body) ++
        (if isBlankLine ((mkOsHeader os name :: body).getLastD "") then [] else [""]) := by
  obtain ⟨_, _, hs, hrepl⟩ := goodName_facts hgood
  unfold renderBlockLines
  have hmap : (mkOsHeader os name :: body).map (stripOsHeaderLine os) =
      ("[mcp_servers." ++ name ++ "]") :: body := by
    rw [List.map_cons]
    congr 1
    · unfold stripOsHeaderLine
      rw [hs]
      simp [hrepl]
    · calc body.map (stripOsHeaderLine os)
          = body.map id :=
            List.map_congr_left (fun l hl =>
              stripOsHeaderLine_inert (inertLine_facts (hbody l hl)).2.2)
        _ = body := List.map_id body
  rw [hmap]
  simp

theorem render_flat (os : String) :
    ∀ (blks : List (String × List String)),
      (∀ b ∈ blks, goodName os b.1 = true) →
      (∀ b ∈ blks, ∀ l ∈ b.2, inertLine os l = true) →
      (∀ b ∈ blks.dropLast, isBlankLine ((mkOsHeader os b.1 :: b.2).getLastD "") = true) →
      ∃ sep, ((blks.map (fun b => renderBlockLines os (mkOsHeader os b.1 :: b.2))).flatten =
        strippedDocOfBlocks blks ++ sep) ∧ (sep = [] ∨ sep = [""])
  | [], _, _, _ => ⟨[], by simp [strippedDocOfBlocks], Or.inl rfl⟩
  | [b], hgood, hbody, _ => by
    refine ⟨if isBlankLine ((mkOsHeader os b.1 :: b.2).getLastD "") then [] else [""], ?_, ?_⟩
    · rw [List.map_cons, List.map_nil, List.flatten_cons, List.flatten_nil, List.append_nil,
        renderBlockLines_doc (hgood b (List.mem_cons_self _ _)) (hbody b (List.mem_cons_self _ _))]
      simp [strippedDocOfBlocks]
    · by_cases h : isBlankLine ((mkOsHeader os b.1 :: b.2).getLastD "") = true
      · rw [if_pos h]; exact Or.inl rfl
      · rw [if_neg h]; exact Or.inr rfl
  | b :: r :: rest, hgood, hbody, hmid => by
    obtain ⟨sep, hflat, hsep⟩ := render_flat os (r :: rest)
      (fun x hx => hgood x (List.mem_cons_of_mem _ hx))
      (fun x hx => hbody x (List.mem_cons_of_mem _ hx))
      (by
        intro x hx
        apply hmid
        rw [List.dropLast_cons₂]
        exact List.mem_cons_of_mem _ hx)
    have hblank : isBlankLine ((mkOsHeader os b.1 :: b.2).getLastD "") = true := by
      apply hmid
      rw [List.dropLast_cons₂]
      exact List.mem_cons_self _ _
    refine ⟨sep, ?_, hsep⟩
    rw [List.map_cons, List.flatten_cons,
      renderBlockLines_doc (hgood b (List.mem_cons_self _ _)) (hbody b (List.mem_cons_self _ _)),
      if_pos hblank, List.append_nil, hflat]
    simp [strippedDocOfBlocks]

theorem isBlankLine_empty : isBlankLine "" = true := rfl

theorem dropTrailingBlanks_append_blank (xs : List String) :
    dropTrailingBlanks (xs ++ [""]) = dropTrailingBlanks xs := by
  unfold dropTrailingBlanks
  rw [List.reverse_append]
  simp [List.dropWhile, isBlankLine_empty]

theorem alookup_assocOf (os : String) :
    ∀ (blks : List (String × List String)), (blks.map Prod.fst).Nodup →
      ∀ b ∈ blks, alookup b.1 (blks.map (fun x => (x.1, mkOsHeader os x.1 :: x.2))) =
        some (mkOsHeader os b.1 :: b.2)
  | [], _, b, hb => absurd hb (List.not_mem_nil b)
  | x :: rest, hnd, b, hb => by
    rcases List.mem_cons.mp hb with rfl | hbr
    · simp [alookup]
    · have hx : x.1 ∉ rest.map Prod.fst := by
        simp only [List.map_cons, List.nodup_cons] at hnd
        exact hnd.1
      have hne : x.1 ≠ b.1 := by
        intro he
        exact hx (he ▸ List.mem_map_of_mem Prod.fst hbr)
      have hne' : b.1 ≠ x.1 := fun he => hne he.symm
      rw [List.map_cons]
      show alookup b.1 ((x.1, mkOsHeader os x.1 :: x.2) :: _) = _
      unfold alookup
      rw [if_neg hne]
      exact alookup_assocOf os rest (by simpa using hnd.of_cons) b hbr

theorem mapM_render_blocks (os : String) :
    ∀ (blks : List (String × List String)) (d : List (String × List String)),
      (∀ b ∈ blks, alookup b.1 d = some (mkOsHeader os b.1 :: b.2)) →
      ((blks.map Prod.fst).mapM (fun n =>
        match alookup n d with
        | some bl => Except.ok (renderBlockLines os bl)
        | none => (Except.error "KeyError" : Except String (List String)))) =
      Except.ok (blks.map (fun b => renderBlockLines os (mkOsHeader os b.1 :: b.2)))
  | [], _, _ => rfl
  | b :: rest, d, h => by
    rw [List.map_cons, List.mapM_cons, h b (List.mem_cons_self _ _),
      mapM_render_blocks os rest d (fun x hx => h x (List.mem_cons_of_mem _ hx))]
    rfl

theorem render_docOfBlocks (os : String) (blks : List (String × List String))
    (hgood : ∀ b ∈ blks, goodName os b.1 = true)
    (hbody : ∀ b ∈ blks, ∀ l ∈ b.2, inertLine os l = true)
    (hmid : ∀ b ∈ blks.dropLast, isBlankLine ((mkOsHeader os b.1 :: b.2).getLastD "") = true)
    (hnd : (blks.map Prod.fst).Nodup) :
    (⟨os, blks.map Prod.fst, blks.map (fun b => (b.1, mkOsHeader os b.1 :: b.2)), []⟩ :
        ServerTemplate).render (blks.map Prod.fst) =
      Except.ok (normalizeDoc (strippedDocOfBlocks blks)) := by
  unfold ServerTemplate.render
  dsimp only
  have hfilter : (blks.map Prod.fst).filter
      (fun n => (blks.map Prod.fst).contains n) = blks.map Prod.fst := by
    apply List.filter_eq_self.mpr
    intro a ha
    exact List.elem_iff.mpr ha
  rw [hfilter,
    mapM_render_blocks os blks _ (fun b hb => alookup_assocOf os blks hnd b hb)]
  show Except.ok (joinSep "\n" (dropTrailingBlanks (headerSectionLines [] ++
      (blks.map (fun b => renderBlockLines os (mkOsHeader os b.1 :: b.2))).flatten)) ++ "\n") = _
  obtain ⟨sep, hflat, hsep⟩ := render_flat os blks hgood hbody hmid
  rw [hflat]
  have hhdr : headerSectionLines [] = [] := rfl
  rw [hhdr, List.nil_append]
  rcases hsep with rfl | rfl
  · rw [List.append_nil]
    rfl
  · rw [dropTrailingBlanks_append_blank]
    rfl

/-! Behaviour of the deploy path. -/

theorem deployJsonValue_obj {fields container : List (String × JValue)}
    (ns : List (String × ServerConfig)) {ck : String}
    (hck : containerAliases.find? (fun k => (alookup k fields).isSome) = some ck)
    (hcv : alookup ck fields = some (JValue.obj container)) :
    deployJsonValue (JValue.obj fields) ns =
      Except.ok (JValue.obj (setKey fields ck
        (JValue.obj (updateObj container (ns.map (fun p => (p.1, JValue.obj p.2))))))) := by
  unfold deployJsonValue
  dsimp only
  rw [hck]
  simp only [Option.getD_some]
  rw [hcv]
  simp only [Option.isSome_some, if_pos]
  rw [hcv]

/-- The flattened catalog: all (server_key, config) pairs in category order. -/
def flatServers (db : ServersDb) : List (String × ServerConfig) :=
  (db.map Prod.snd).flatten

/-- One step of new_servers accumulation. -/
def buildStep (selected : List String) (acc : List (String × ServerConfig))
    (p : String × ServerConfig) : List (String × ServerConfig) :=
  if selected.contains p.1 then setKey acc p.1 (removeTypeField p.2) else acc

theorem buildStep_pos {selected : List String} {p : String × ServerConfig}
    (acc : List (String × ServerConfig)) (h : selected.contains p.1 = true) :
    buildStep selected acc p = setKey acc p.1 (removeTypeField p.2) := by
  unfold buildStep
  rw [if_pos h]

theorem buildStep_neg {selected : List String} {p : String × ServerConfig}
    (acc : List (String × ServerConfig)) (h : selected.contains p.1 = false) :
    buildStep selected acc p = acc := by
  unfold buildStep
  rw [h]
  simp

theorem buildNewServers_eq_flat (db : ServersDb) (selected : List String) :
    buildNewServers db selected = (flatServers db).foldl (buildStep selected) [] := by
  unfold buildNewServers flatServers buildStep
  rw [List.foldl_flatten]
  rw [List.foldl_map]

theorem alookup_buildFold_of_not_sel {selected : List String} {k : String}
    (hsel : selected.contains k = false) :
    ∀ (l : List (String × ServerConfig)) (acc : List (String × ServerConfig)),
      alookup k (l.foldl (buildStep selected) acc) = alookup k acc
  | [], _ => rfl
  | p :: ps, acc => by
    rw [List.foldl_cons, alookup_buildFold_of_not_sel hsel ps _]
    unfold buildStep
    by_cases hc : selected.contains p.1
    · rw [if_pos hc]
      have hne : k ≠ p.1 := by
        intro he
        rw [he] at hsel
        rw [hsel] at hc
        cases hc
      exact alookup_setKey_ne _ _ hne
    · rw [if_neg hc]

theorem alookup_buildFold_of_not_memflat {selected : List String} {k : String} :
    ∀ (l : List (String × ServerConfig)) (acc : List (String × ServerConfig)),
      k ∉ l.map Prod.fst →
      alookup k (l.foldl (buildStep selected) acc) = alookup k acc
  | [], _, _ => rfl
  | p :: ps, acc, h => by
    have hk : k ∉ ps.map Prod.fst := by
      intro hm
      exact h (by rw [List.map_cons]; exact List.mem_cons_of_mem _ hm)
    have hne : k ≠ p.1 := by
      intro he
      exact h (by rw [List.map_cons, he]; exact List.mem_cons_self _ _)
    rw [List.foldl_cons, alookup_buildFold_of_not_memflat ps _ hk]
    unfold buildStep
    by_cases hc : selected.contains p.1
    · rw [if_pos hc]
      exact alookup_setKey_ne _ _ hne
    · rw [if_neg hc]

theorem alookup_buildFold_of_mem {selected : List String} {k : String} {c : ServerConfig} :
    ∀ (l : List (String × ServerConfig)) (acc : List (String × ServerConfig)),
      (k, c) ∈ l → (l.map Prod.fst).Nodup → selected.contains k = true →
      alookup k (l.foldl (buildStep selected) acc) = some (removeTypeField c)
  | [], _, hm, _, _ => absurd hm (List.not_mem_nil _)
  | p :: ps, acc, hm, hnd, hsel => by
    rcases List.mem_cons.mp hm with rfl | hmr
    · have hk : k ∉ ps.map Prod.fst := by
        simp only [List.map_cons, List.nodup_cons] at hnd
        exact hnd.1
      rw [List.foldl_cons, alookup_buildFold_of_not_memflat ps _ hk]
      unfold buildStep
      rw [if_pos hsel]
      exact alookup_setKey_self _ _ _
    · rw [List.foldl_cons]
      exact alookup_buildFold_of_mem ps _ hmr (by simpa using hnd.of_cons) hsel

theorem keysOf_buildFold {selected : List String} :
    ∀ (l : List (String × ServerConfig)) (acc : List (String × ServerConfig)),
      (l.map Prod.fst).Nodup → (∀ k ∈ l.map Prod.fst, k ∉ keysOf acc) →
      keysOf (l.foldl (buildStep selected) acc) =
        keysOf acc ++ (l.map Prod.fst).filter (fun k => selected.contains k)
  | [], acc, _, _ => by simp
  | p :: ps, acc, hnd, hacc => by
    have hp1 : p.1 ∉ ps.map Prod.fst := by
      simp only [List.map_cons, List.nodup_cons] at hnd
      exact hnd.1
    rw [List.foldl_cons]
    by_cases hc : selected.contains p.1
    · rw [buildStep_pos acc hc]
      have hpacc : p.1 ∉ keysOf acc := hacc p.1 (by simp)
      rw [keysOf_buildFold ps _ (by simpa using hnd.of_cons)
        (by
          intro k hk
          rw [keysOf_setKey_of_not_mem _ hpacc]
          intro hmem
          rcases List.mem_append.mp hmem with h | h
          · exact hacc k (by rw [List.map_cons]; exact List.mem_cons_of_mem _ hk) h
          · have : k = p.1 := by simpa using h
            exact hp1 (this ▸ hk))]
      rw [keysOf_setKey_of_not_mem _ hpacc]
      rw [List.map_cons, List.filter_cons]
      simp only [hc, if_true]
      simp
    · rw [buildStep_neg acc (by simpa using hc)]
      rw [keysOf_buildFold ps _ (by simpa using hnd.of_cons)
        (fun k hk => hacc k (by rw [List.map_cons]; exact List.mem_cons_of_mem _ hk))]
      have hc' : selected.contains p.1 = false := by simpa using hc
      rw [List.map_cons, List.filter_cons]
      simp only [hc']
      simp

/-! The sorted TOML writer. -/

theorem sortedServerNames_sorted (ns : List (String × ServerConfig)) :
    List.Sorted (fun a b => a ≤ b) (sortedServerNames ns) :=
  List.sorted_insertionSort _ _

theorem sortedServerNames_perm (ns : List (String × ServerConfig)) :
    (sortedServerNames ns).Perm (keysOf ns) :=
  List.perm_insertionSort _ _

theorem sortedServerNames_eq_of_perm {ns₁ ns₂ : List (String × ServerConfig)}
    (hp : ns₁.Perm ns₂) : sortedServerNames ns₁ = sortedServerNames ns₂ := by
  apply List.eq_of_perm_of_sorted _ (sortedServerNames_sorted ns₁) (sortedServerNames_sorted ns₂)
  exact (sortedServerNames_perm ns₁).trans ((hp.map Prod.fst).trans (sortedServerNames_perm ns₂).symm)

theorem tomlBlocksOf_eq_of_perm {ns₁ ns₂ : List (String × ServerConfig)}
    (hp : ns₁.Perm ns₂) (hnd : (keysOf ns₁).Nodup) :
    tomlBlocksOf ns₁ = tomlBlocksOf ns₂ := by
  unfold tomlBlocksOf
  rw [sortedServerNames_eq_of_perm hp]
  apply List.filterMap_congr
  intro k _
  rw [alookup_perm hp hnd k]

theorem write_toml_mcp_servers_eq_of_perm {ns₁ ns₂ : List (String × ServerConfig)}
    (old : Option (List String)) (hp : ns₁.Perm ns₂) (hnd : (keysOf ns₁).Nodup) :
    write_toml_mcp_servers old ns₁ = write_toml_mcp_servers old ns₂ := by
  unfold write_toml_mcp_servers
  rw [tomlBlocksOf_eq_of_perm hp hnd]

theorem filterMap_alookup_fst {β γ : Type} (d : List (String × β)) (g : String → β → γ) :
    ∀ (ks : List String), (∀ k ∈ ks, (alookup k d).isSome) →
      (ks.filterMap (fun k => (alookup k d).map (fun c => (k, g k c)))).map Prod.fst = ks
  | [], _ => rfl
  | k :: ks, h => by
    cases hlook : alookup k d with
    | none =>
      have hsome := h k (List.mem_cons_self _ _)
      rw [hlook] at hsome
      simp at hsome
    | some c =>
      simp only [List.filterMap_cons, hlook, Option.map_some', List.map_cons]
      rw [filterMap_alookup_fst d g ks (fun x hx => h x (List.mem_cons_of_mem _ hx))]

theorem tomlBlocksOf_fst (ns : List (String × ServerConfig)) :
    (tomlBlocksOf ns).map Prod.fst = sortedServerNames ns := by
  unfold tomlBlocksOf
  apply filterMap_alookup_fst
  intro k hk
  have hmem : k ∈ keysOf ns := (sortedServerNames_perm ns).mem_iff.mp hk
  exact (alookup_isSome_iff_mem k ns).mpr hmem

/-! Remaining helper lemmas for the claim statements. -/

theorem keysOf_map_objWrap (ns : List (String × ServerConfig)) :
    keysOf (ns.map (fun p => (p.1, JValue.obj p.2))) = keysOf ns := by
  unfold keysOf
  rw [List.map_map]
  rfl

theorem foldlM_container_keys (blocks : List (String × JValue)) :
    ∀ (ns : List String) (acc : List (String × JValue)), ns.Nodup →
      (∀ n ∈ ns, (alookup n blocks).isSome) → (∀ n ∈ ns, n ∉ keysOf acc) →
      ∃ c, (ns.foldlM (fun acc2 n =>
          match alookup n blocks with
          | some v => Except.ok (setKey acc2 n v)
          | none => (Except.error "KeyError" : Except String (List (String × JValue)))) acc) =
        Except.ok c ∧ keysOf c = keysOf acc ++ ns
  | [], acc, _, _, _ => ⟨acc, rfl, by simp⟩
  | n :: ns, acc, hnd, hsome, hacc => by
    have hs := hsome n (List.mem_cons_self _ _)
    cases hv : alookup n blocks with
    | none => rw [hv] at hs; simp at hs
    | some v =>
      have hnacc : n ∉ keysOf acc := hacc n (List.mem_cons_self _ _)
      have hn1 : n ∉ ns := (List.nodup_cons.mp hnd).1
      obtain ⟨c, hrun, hkeys⟩ := foldlM_container_keys blocks ns (setKey acc n v)
        (List.nodup_cons.mp hnd).2
        (fun x hx => hsome x (List.mem_cons_of_mem _ hx))
        (by
          intro x hx
          rw [keysOf_setKey_of_not_mem _ hnacc]
          intro hmem
          rcases List.mem_append.mp hmem with h | h
          · exact hacc x (List.mem_cons_of_mem _ hx) h
          · have : x = n := by simpa using h
            exact hn1 (this ▸ hx))
      refine ⟨c, ?_, ?_⟩
      · rw [List.foldlM_cons, hv]
        exact hrun
      · rw [hkeys, keysOf_setKey_of_not_mem _ hnacc]
        simp

theorem render_json_llm_keys (metadata : List (String × JValue)) (ck : String)
    (server_order : List String) (server_blocks : List (String × JValue))
    (selected : List String)
    (hnd : server_order.Nodup)
    (hsome : ∀ n ∈ server_order, (alookup n server_blocks).isSome) :
    ∃ container, render_json_llm metadata (some ck) server_order server_blocks selected =
        Except.ok (setKey metadata ck (JValue.obj container)) ∧
      keysOf container = server_order.filter (fun n => selected.contains n) := by
  obtain ⟨c, hrun, hkeys⟩ := foldlM_container_keys server_blocks
    (server_order.filter (fun n => selected.contains n)) []
    (hnd.filter _)
    (fun n hn => hsome n (List.mem_of_mem_filter hn))
    (by intro n _; simp [keysOf])
  refine ⟨c, ?_, by simpa using hkeys⟩
  unfold render_json_llm
  dsimp only
  rw [hrun]
  rfl

theorem filter_contains_nil (order : List String) :
    order.filter (fun n => List.contains ([] : List String) n) = [] := by
  induction order with
  | nil => rfl
  | cons a l ih => simp [List.filter, ih]

theorem render_empty_selection (t : ServerTemplate) (h : t.header_lines = []) :
    t.render [] = Except.ok "\n" := by
  unfold ServerTemplate.render
  rw [filter_contains_nil, h]
  rfl

theorem load_llm_header_nil {os : String} {ls : List String} {t : ServerTemplate}
    (h : load_toml_template_llm os ls = Except.ok t) : t.header_lines = [] := by
  unfold load_toml_template_llm at h
  cases hrun : runTomlLines os ls ⟨[], [], none⟩ with
  | error e => rw [hrun] at h; cases h
  | ok st =>
    rw [hrun] at h
    cases h
    rfl

theorem all_ws_rstripChars_nil {l : List Char} (h : ∀ c ∈ l, isPyWS c = true) :
    rstripChars l = [] := by
  unfold rstripChars
  have : l.reverse.dropWhile isPyWS = [] :=
    List.dropWhile_eq_nil_iff.mpr (fun c hc => h c (List.mem_reverse.mp hc))
  rw [this]
  rfl

theorem pyStrip_ne_empty_of_rstrip_fixed {s : String} (h1 : s ≠ "") (h2 : pyRstrip s = s) :
    pyStrip s ≠ "" := by
  intro he
  have hdata : s.data ≠ [] := by
    intro hd
    apply h1
    cases s with
    | mk d => cases hd; rfl
  have hrs : rstripChars s.data = s.data := by
    have := congrArg String.data h2
    simpa [pyRstrip] using this
  have hdrop : (rstripChars s.data).dropWhile isPyWS = [] := by
    have := congrArg String.data he
    simpa [pyStrip] using this
  rw [hrs] at hdrop
  have hws : ∀ c ∈ s.data, isPyWS c = true := List.dropWhile_eq_nil_iff.mp hdrop
  have hnil : rstripChars s.data = [] := all_ws_rstripChars_nil hws
  rw [hrs] at hnil
  exact absurd hnil hdata

theorem extract_rstrip_fixed (old : Option (List String)) :
    pyRstrip (extract_toml_text_before_mcp old) = extract_toml_text_before_mcp old := by
  cases old with
  | none => rfl
  | some lines =>
    unfold extract_toml_text_before_mcp
    exact pyRstrip_idem _

theorem write_toml_empty_ns (old : Option (List String)) :
    write_toml_mcp_servers old [] = extract_toml_text_before_mcp old ++ "\n" := by
  have hred : write_toml_mcp_servers old [] =
      pyRstrip (joinSep "\n\n"
        ((((if extract_toml_text_before_mcp old = "" then [] else
            [extract_toml_text_before_mcp old]) ++ []).filter
          (fun s => decide (¬ s = "" ∧ ¬ pyStrip s = ""))).map pyRstrip)) ++ "\n" := rfl
  rw [hred]
  by_cases hpre : extract_toml_text_before_mcp old = ""
  · rw [if_pos hpre, hpre]
    rfl
  · rw [if_neg hpre]
    have hfix := extract_rstrip_fixed old
    have hstrip := pyStrip_ne_empty_of_rstrip_fixed hpre hfix
    rw [List.append_nil]  -- the [pre] ++ [] shape
    rw [List.filter_cons]
    rw [if_pos (by simp [hpre, hstrip])]
    rw [List.filter_nil, List.map_cons, List.map_nil, hfix, joinSep_singleton, hfix]

theorem keysOf_buildNewServers (db : ServersDb) (selected : List String)
    (hnddb : ((flatServers db).map Prod.fst).Nodup) :
    keysOf (buildNewServers db selected) =
      ((flatServers db).map Prod.fst).filter (fun k => selected.contains k) := by
  rw [buildNewServers_eq_flat]
  simpa using keysOf_buildFold (flatServers db) [] hnddb (by intro k _ h; simp [keysOf] at h)

theorem keys_buildNewServers_nodup (db : ServersDb) (selected : List String)
    (hnddb : ((flatServers db).map Prod.fst).Nodup) :
    (keysOf (buildNewServers db selected)).Nodup := by
  rw [keysOf_buildNewServers db selected hnddb]
  exact hnddb.filter _

theorem alookup_map_objWrap (k : String) :
    ∀ ns : List (String × ServerConfig),
      alookup k (ns.map (fun p => (p.1, JValue.obj p.2))) = (alookup k ns).map JValue.obj
  | [] => rfl
  | p :: ps => by
    by_cases hp : p.1 = k
    · simp [alookup, hp]
    · simp only [List.map_cons, alookup, if_neg hp]
      exact alookup_map_objWrap k ps

theorem alookup_buildNewServers_of_mem (db : ServersDb) (selected : List String)
    {k : String} {cfg : ServerConfig}
    (hmem : (k, cfg) ∈ flatServers db)
    (hnddb : ((flatServers db).map Prod.fst).Nodup)
    (hsel : selected.contains k = true) :
    alookup k (buildNewServers db selected) = some (removeTypeField cfg) := by
  rw [buildNewServers_eq_flat]
  exact alookup_buildFold_of_mem (flatServers db) [] hmem hnddb hsel

/-! The claim theorems. -/

/-- C1, counterexample: parsing the TOML source document
    "[windows.mcp_servers.x]\nfoo = 1\n" and rendering it with the selection
    equal to all of its block names yields "[mcp_servers.x]\nfoo = 1\n": the OS
    qualifier is stripped from the section header, so the output differs from
    the normalized source document and the round-trip law fails as stated. -/
theorem claim1_roundtrip_counterexample :
    load_toml_template_llm "windows" ["[windows.mcp_servers.x]", "foo = 1"] =
      Except.ok ⟨"windows", ["x"], [("x", ["[windows.mcp_servers.x]", "foo = 1"])], []⟩ ∧
    (⟨"windows", ["x"], [("x", ["[windows.mcp_servers.x]", "foo = 1"])], []⟩ :
        ServerTemplate).render ["x"] = Except.ok "[mcp_servers.x]\nfoo = 1\n" ∧
    normalizeDoc ["[windows.mcp_servers.x]", "foo = 1"] =
      "[windows.mcp_servers.x]\nfoo = 1\n" ∧
    ("[mcp_servers.x]\nfoo = 1\n" : String) ≠ "[windows.mcp_servers.x]\nfoo = 1\n" :=
  ⟨rfl, rfl, rfl, by decide⟩

/-- C1 (amended): for a TOML source document that is a concatenation of
    well-formed blocks qualified for the loaded OS, each block but the last
    ending in a blank line, rendering the parse with selection = all block
    names reproduces the document with the OS qualifier stripped from the
    section-header lines, up to normalization (trailing blank lines collapsed,
    single trailing newline). The unqualified round-trip of the claim fails
    because of exactly this qualifier stripping (and, on the JSON path,
    because render drops the per-OS wrapper that load_json_template reads). -/
theorem claim1_roundtrip_amended (os : String) (blks : List (String × List String))
    (hgood : ∀ b ∈ blks, goodName os b.1 = true)
    (hbody : ∀ b ∈ blks, ∀ l ∈ b.2, inertLine os l = true)
    (hmid : ∀ b ∈ blks.dropLast, isBlankLine ((mkOsHeader os b.1 :: b.2).getLastD "") = true)
    (hnd : (blks.map Prod.fst).Nodup) :
    ∃ t, load_toml_template_llm os (docOfBlocks os blks) = Except.ok t ∧
      t.server_order = blks.map Prod.fst ∧
      t.render t.server_order = Except.ok (normalizeDoc (strippedDocOfBlocks blks)) := by
  refine ⟨_, load_toml_template_llm_docOfBlocks os blks hgood hbody hnd, rfl, ?_⟩
  exact render_docOfBlocks os blks hgood hbody hmid hnd

/-- C1 witness: the amended round-trip evaluated on the concrete two-block
    document for the windows qualifier. -/
theorem claim1_roundtrip_amended_witness :
    ∃ t, load_toml_template_llm "windows"
        (docOfBlocks "windows" [("x", ["foo = 1", ""]), ("y", ["bar = 2"])]) = Except.ok t ∧
      t.server_order = ["x", "y"] ∧
      t.render t.server_order =
        Except.ok (normalizeDoc
          (strippedDocOfBlocks [("x", ["foo = 1", ""]), ("y", ["bar = 2"])])) := by
  obtain ⟨t, h1, h2, h3⟩ := claim1_roundtrip_amended "windows"
    [("x", ["foo = 1", ""]), ("y", ["bar = 2"])]
    (by decide) (by decide) (by decide) (by decide)
  exact ⟨t, h1, by rw [h2]; rfl, h3⟩

/-- C7 (code bug): load_all_llms_and_servers catches only ValueError, but a
    servers file whose JSON text decodes to a top-level scalar (such as 5)
    makes load_json_template raise TypeError at the container-key membership
    test, which escapes and aborts the remaining templates; with the same
    surrounding files, a plain JSON decode error (a ValueError) is caught and
    skipped and the remaining templates still load. -/
theorem claim7_typeerror_aborts_load :
    load_all_llms_and_servers
      [SrcFile.jsonSrc (Except.ok (JValue.obj [("mcpServers", JValue.obj [("s1", JValue.obj [])])])),
       SrcFile.jsonSrc (Except.ok (JValue.num 5)),
       SrcFile.tomlSrc ["[mcp_servers.t]", "x = 1"]] =
      Except.error (PyErr.typeError "argument of type is not iterable") ∧
    load_all_llms_and_servers
      [SrcFile.jsonSrc (Except.ok (JValue.obj [("mcpServers", JValue.obj [("s1", JValue.obj [])])])),
       SrcFile.jsonSrc (Except.error "Expecting value: line 1 column 1 (char 0)"),
       SrcFile.tomlSrc ["[mcp_servers.t]", "x = 1"]] =
      Except.ok ([[("s1", SVal.jsonCfg (JValue.obj []))],
                  [("t", SVal.tomlBlock ["[mcp_servers.t]", "x = 1"])]],
        [("s1", SVal.jsonCfg (JValue.obj [])),
         ("t", SVal.tomlBlock ["[mcp_servers.t]", "x = 1"])]) :=
  ⟨rfl, rfl⟩

/-- C8: for a TOML source holding the same block name under both OS
    qualifiers, parsing for the windows qualifier yields exactly that one
    block with the windows content, excludes the other qualifier's section
    entirely, and rendering the selected block strips the qualifier from its
    section-header line; the output is the qualifier-stripped block up to
    normalization. -/
theorem claim8_qualifier_scenario (name : String) (body1 body2 : List String)
    (hgood : goodName "windows" name = true)
    (hbody1 : ∀ l ∈ body1, inertLine "windows" l = true)
    (hbody2 : ∀ l ∈ body2, matchedMark "windows" l = none)
    (hmOther : matchedMark "windows" (mkOsHeader "wsl" name) = none)
    (hoth : isOtherOsLine "windows" (mkOsHeader "wsl" name) = true) :
    load_toml_template_llm "windows"
        ((mkOsHeader "windows" name :: body1) ++ (mkOsHeader "wsl" name :: body2)) =
      Except.ok ⟨"windows", [name], [(name, mkOsHeader "windows" name :: body1)], []⟩ ∧
    strippedDocOfBlocks [(name, body1)] = ("[mcp_servers." ++ name ++ "]") :: body1 ∧
    (⟨"windows", [name], [(name, mkOsHeader "windows" name :: body1)], []⟩ :
        ServerTemplate).render [name] =
      Except.ok (normalizeDoc (("[mcp_servers." ++ name ++ "]") :: body1)) := by
  have hstrip : strippedDocOfBlocks [(name, body1)] =
      ("[mcp_servers." ++ name ++ "]") :: body1 := by
    simp [strippedDocOfBlocks]
  refine ⟨?_, hstrip, ?_⟩
  · unfold load_toml_template_llm
    rw [List.cons_append, runTomlLines_cons_ok (by
      obtain ⟨hm, hex, _, _⟩ := goodName_facts hgood
      have hstep := @tomlStepLLM_eq_mark_new "windows" (mkOsHeader "windows" name)
        ("[" ++ "windows" ++ ".mcp_servers.") [] [] none hm
        (by rw [hex]; exact List.not_mem_nil _)
      rw [hex] at hstep
      exact hstep)]
    rw [runTomlLines_body "windows" body1 hbody1 _ _ _ _ _]
    rw [runTomlLines_cons_ok (tomlStepLLM_eq_other hmOther hoth)]
    rw [runTomlLines_skipAll "windows" body2 hbody2 _ _]
    rfl
  · have hrender := render_docOfBlocks "windows" [(name, body1)]
      (by intro b hb; rcases List.mem_cons.mp hb with rfl | h; exact hgood; simp at h)
      (by
        intro b hb l hl
        rcases List.mem_cons.mp hb with rfl | h
        · exact hbody1 l hl
        · simp at h)
      (by intro b hb; simp at hb)
      (by simp)
    rw [hstrip] at hrender
    simpa using hrender

/-- C8 witness: the concrete spec scenario with qualifiers windows and wsl;
    the windows load keeps only the windows block and the render output is
    "[mcp_servers.x]\nfoo = 1\n". -/
theorem claim8_qualifier_scenario_witness :
    load_toml_template_llm "windows"
        ["[windows.mcp_servers.x]", "foo = 1", "", "[wsl.mcp_servers.x]", "foo = 2"] =
      Except.ok ⟨"windows", ["x"], [("x", ["[windows.mcp_servers.x]", "foo = 1", ""])], []⟩ ∧
    (⟨"windows", ["x"], [("x", ["[windows.mcp_servers.x]", "foo = 1", ""])], []⟩ :
        ServerTemplate).render ["x"] = Except.ok "[mcp_servers.x]\nfoo = 1\n" := by
  have h := claim8_qualifier_scenario "x" ["foo = 1", ""] ["foo = 2"]
    (by decide) (by decide) (by decide) (by decide) (by decide)
  obtain ⟨h1, _, h3⟩ := h
  constructor
  · exact h1
  · have hnorm : normalizeDoc (("[mcp_servers." ++ "x" ++ "]") :: ["foo = 1", ""]) =
        "[mcp_servers.x]\nfoo = 1\n" := by decide
    exact hnorm ▸ h3

/-- C9: for every input, the llm.py TOML parser returns without raising (the
    dict indexing in its sub-table branch never hits a missing key), its
    server_order has no duplicates and every ordered name has an entry in
    server_blocks; the main3.py TOML parser's block map likewise has
    duplicate-free keys with every key indexable; and every name in a JSON
    template's server order (the container's key list) indexes its servers
    mapping. -/
theorem claim9_parser_invariants :
    (∀ (os : String) (ls : List String),
      ∃ t, load_toml_template_llm os ls = Except.ok t ∧ t.server_order.Nodup ∧
        ∀ n ∈ t.server_order, (alookup n t.server_blocks).isSome) ∧
    (∀ ls : List String,
      (keysOf (load_toml_template_m3 ls).server_blocks).Nodup ∧
      ∀ n ∈ keysOf (load_toml_template_m3 ls).server_blocks,
        (alookup n (load_toml_template_m3 ls).server_blocks).isSome) ∧
    (∀ (dec : Except String JValue) (t : M3JsonTemplate),
      load_json_template_m3 dec = Except.ok t →
      ∀ n ∈ keysOf t.servers, (alookup n t.servers).isSome) := by
  refine ⟨load_toml_template_llm_ok, ?_, ?_⟩
  · intro ls
    exact ⟨load_toml_template_m3_keys_nodup ls,
      fun n hn => (alookup_isSome_iff_mem n _).mpr hn⟩
  · intro dec t _ n hn
    exact (alookup_isSome_iff_mem n _).mpr hn

/-- C9 witness: the JSON-path conjunct applied at a concrete decoded document,
    discharging its hypothesis by evaluation. -/
theorem claim9_parser_invariants_witness :
    (alookup "s1" [("s1", JValue.obj [])]).isSome = true := by
  have h := claim9_parser_invariants.2.2
    (Except.ok (JValue.obj [("mcpServers", JValue.obj [("s1", JValue.obj [])])]))
    ⟨[], "mcpServers", [("s1", JValue.obj [])]⟩ rfl
  exact h "s1" (by decide)

/-- C2, counterexample: deploying selection set containing only git to a JSON
    destination whose container already holds the unselected entry legacy
    keeps legacy: the written container's names are legacy and git, not
    exactly the selection. -/
theorem claim2_exact_selection_counterexample :
    deployJsonValue (JValue.obj [("mcpServers", JValue.obj [("legacy", JValue.obj [])])])
        (buildNewServers dbSample ["git"]) =
      Except.ok (JValue.obj [("mcpServers", JValue.obj
        [("legacy", JValue.obj []),
         ("git", JValue.obj [("command", JValue.str "npx"),
           ("args", JValue.arr [JValue.str "@modelcontextprotocol/server-git"])])])]) ∧
    keysOf [("legacy", JValue.obj []),
      ("git", JValue.obj [("command", JValue.str "npx"),
        ("args", JValue.arr [JValue.str "@modelcontextprotocol/server-git"])])] =
      ["legacy", "git"] ∧
    ("legacy" : String) ∉ (["git"] : List String) :=
  ⟨rfl, rfl, by decide⟩

/-- C2 (amended): the JSON deploy path merges rather than replaces: the
    written container's name set is the union of the existing document's
    container names and the selected catalog names (existing unselected
    entries survive); only the TOML deploy writer produces exactly the
    selected catalog names as its block set. -/
theorem claim2_container_names_amended (db : ServersDb) (selected : List String)
    (fields container : List (String × JValue)) (ck : String)
    (hck : containerAliases.find? (fun k => (alookup k fields).isSome) = some ck)
    (hcv : alookup ck fields = some (JValue.obj container))
    (hnddb : ((flatServers db).map Prod.fst).Nodup) :
    ∃ merged,
      deployJsonValue (JValue.obj fields) (buildNewServers db selected) =
        Except.ok (JValue.obj (setKey fields ck (JValue.obj merged))) ∧
      (∀ k, k ∈ keysOf merged ↔
        (k ∈ keysOf container ∨ (k ∈ (flatServers db).map Prod.fst ∧ k ∈ selected))) ∧
      ((tomlBlocksOf (buildNewServers db selected)).map Prod.fst).Perm
        (((flatServers db).map Prod.fst).filter (fun k => selected.contains k)) := by
  have hkeysns := keysOf_buildNewServers db selected hnddb
  have hndns := keys_buildNewServers_nodup db selected hnddb
  refine ⟨updateObj container
      ((buildNewServers db selected).map (fun p => (p.1, JValue.obj p.2))),
    deployJsonValue_obj _ hck hcv, ?_, ?_⟩
  · intro k
    rw [keysOf_updateObj _ _ (by rw [keysOf_map_objWrap]; exact hndns)]
    rw [keysOf_map_objWrap, hkeysns]
    constructor
    · intro hmem
      rcases List.mem_append.mp hmem with h | h
      · exact Or.inl h
      · obtain ⟨hmf, _⟩ := List.mem_filter.mp h
        obtain ⟨hdb, hsel⟩ := List.mem_filter.mp hmf
        exact Or.inr ⟨hdb, by simpa using hsel⟩
    · intro hmem
      rcases hmem with h | ⟨hdb, hsel⟩
      · exact List.mem_append.mpr (Or.inl h)
      · by_cases hc : k ∈ keysOf container
        · exact List.mem_append.mpr (Or.inl hc)
        · refine List.mem_append.mpr (Or.inr ?_)
          refine List.mem_filter.mpr ⟨List.mem_filter.mpr ⟨hdb, ?_⟩, by simpa using hc⟩
          simpa using hsel
  · rw [tomlBlocksOf_fst, ← hkeysns]
    exact sortedServerNames_perm _

/-- C2 witness: the amended statement's TOML part evaluated on the sample
    catalog with selection git and a destination holding an unselected entry. -/
theorem claim2_container_names_amended_witness :
    ((tomlBlocksOf (buildNewServers dbSample ["git"])).map Prod.fst).Perm
      (((flatServers dbSample).map Prod.fst).filter (fun k => ["git"].contains k)) := by
  obtain ⟨m, _, _, hperm⟩ := claim2_container_names_amended dbSample ["git"]
    [("mcpServers", JValue.obj [("legacy", JValue.obj [])])] [("legacy", JValue.obj [])]
    "mcpServers" rfl rfl (by decide)
  exact hperm

/-- C5, counterexample: llm.py render with selection containnig a name absent
    from the source drops it instead of appending the catalog definition: the
    rendered block order for source order [a] and selection [a, b] is [a],
    not [a, b]. -/
theorem claim5_order_counterexample :
    render_json_llm [] (some "mcpServers") ["a"] [("a", JValue.obj [])] ["a", "b"] =
      Except.ok [("mcpServers", JValue.obj [("a", JValue.obj [])])] ∧
    keysOf [("a", JValue.obj [])] = ["a"] ∧
    (["a"] : List String) ≠ ["a", "b"] :=
  ⟨rfl, rfl, by decide⟩

/-- C5 (amended): llm.py render's block order is exactly the source order
    filtered to the selection (selected names absent from the source are
    dropped: render receives no catalog); on the deploy path, dict.update
    keeps the existing container's full order, selected or not, and appends
    the new selected catalog names at the end in catalog order. -/
theorem claim5_order_amended (metadata : List (String × JValue)) (ck : String)
    (server_order : List String) (server_blocks : List (String × JValue))
    (selected : List String) (container : List (String × JValue))
    (ns : List (String × ServerConfig))
    (hnd : server_order.Nodup)
    (hsome : ∀ n ∈ server_order, (alookup n server_blocks).isSome)
    (hnds : (keysOf ns).Nodup) :
    (∃ c, render_json_llm metadata (some ck) server_order server_blocks selected =
        Except.ok (setKey metadata ck (JValue.obj c)) ∧
      keysOf c = server_order.filter (fun n => selected.contains n)) ∧
    keysOf (updateObj container (ns.map (fun p => (p.1, JValue.obj p.2)))) =
      keysOf container ++ (keysOf ns).filter (fun k => decide (k ∉ keysOf container)) := by
  refine ⟨render_json_llm_keys metadata ck server_order server_blocks selected hnd hsome, ?_⟩
  rw [keysOf_updateObj _ _ (by rw [keysOf_map_objWrap]; exact hnds), keysOf_map_objWrap]

/-- C5 witness: source order [a, b, c] with selection [c, a] renders in source
    order [a, c]; an existing container [old] merged with the selected catalog
    entry git has order [old, git]. -/
theorem claim5_order_amended_witness :
    render_json_llm [] (some "mcpServers") ["a", "b", "c"]
        [("a", JValue.obj []), ("b", JValue.obj []), ("c", JValue.obj [])] ["c", "a"] =
      Except.ok [("mcpServers", JValue.obj [("a", JValue.obj []), ("c", JValue.obj [])])] ∧
    keysOf (updateObj [("old", JValue.obj [])]
        ((buildNewServers dbSample ["git"]).map (fun p => (p.1, JValue.obj p.2)))) =
      ["old", "git"] := by
  constructor
  · rfl
  · have h := (claim5_order_amended [] "mcpServers" [] [] [] [("old", JValue.obj [])]
      (buildNewServers dbSample ["git"]) List.nodup_nil
      (by intro n hn; exact absurd hn (List.not_mem_nil n)) (by decide)).2
    rw [h]
    decide

/-- C6, counterexample: the destination already holds git with its own
    content, git is selected, and the deploy path writes the catalog
    definition (type key removed) over it: the existing document's content is
    not used for a name present in both. -/
theorem claim6_content_counterexample :
    deployJsonValue
        (JValue.obj [("mcpServers",
          JValue.obj [("git", JValue.obj [("command", JValue.str "my-old-git")])])])
        (buildNewServers dbSample ["git"]) =
      Except.ok (JValue.obj [("mcpServers", JValue.obj
        [("git", JValue.obj [("command", JValue.str "npx"),
          ("args", JValue.arr [JValue.str "@modelcontextprotocol/server-git"])])])]) ∧
    JValue.obj [("command", JValue.str "npx"),
        ("args", JValue.arr [JValue.str "@modelcontextprotocol/server-git"])] ≠
      JValue.obj [("command", JValue.str "my-old-git")] := by
  refine ⟨rfl, ?_⟩
  intro h
  injection h with h2
  simp at h2

/-- C6 (amended): for every selected catalog name the deploy path writes the
    catalog definition with its type field removed, overwriting any existing
    content for that name; the existing document's content is kept exactly
    for the names outside new_servers. -/
theorem claim6_content_amended (db : ServersDb) (selected : List String)
    (fields container : List (String × JValue)) (ck k : String)
    (hck : containerAliases.find? (fun k => (alookup k fields).isSome) = some ck)
    (hcv : alookup ck fields = some (JValue.obj container))
    (hnddb : ((flatServers db).map Prod.fst).Nodup) :
    (∀ c : ServerConfig, alookup k (buildNewServers db selected) = some c →
      ∃ merged, deployJsonValue (JValue.obj fields) (buildNewServers db selected) =
          Except.ok (JValue.obj (setKey fields ck (JValue.obj merged))) ∧
        alookup k merged = some (JValue.obj c)) ∧
    (k ∉ keysOf (buildNewServers db selected) →
      ∃ merged, deployJsonValue (JValue.obj fields) (buildNewServers db selected) =
          Except.ok (JValue.obj (setKey fields ck (JValue.obj merged))) ∧
        alookup k merged = alookup k container) ∧
    (∀ cfg : ServerConfig, (k, cfg) ∈ flatServers db → selected.contains k = true →
      alookup k (buildNewServers db selected) = some (removeTypeField cfg)) := by
  have hndns := keys_buildNewServers_nodup db selected hnddb
  have hndmap : (keysOf ((buildNewServers db selected).map
      (fun p => (p.1, JValue.obj p.2)))).Nodup := by
    rw [keysOf_map_objWrap]
    exact hndns
  refine ⟨?_, ?_, ?_⟩
  · intro c hc
    refine ⟨_, deployJsonValue_obj _ hck hcv, ?_⟩
    apply alookup_updateObj_of_mem _ _ hndmap
    rw [alookup_map_objWrap, hc]
    rfl
  · intro hk
    refine ⟨_, deployJsonValue_obj _ hck hcv, ?_⟩
    apply alookup_updateObj_of_not_mem
    rw [keysOf_map_objWrap]
    exact hk
  · intro cfg hmem hsel
    exact alookup_buildNewServers_of_mem db selected hmem hnddb hsel

/-- C6 witness: the selected catalog entry git is written with its type field
    removed, regardless of the destination's existing git content. -/
theorem claim6_content_amended_witness :
    alookup "git" (buildNewServers dbSample ["git"]) =
      some [("command", JValue.str "npx"),
            ("args", JValue.arr [JValue.str "@modelcontextprotocol/server-git"])] := by
  have h := (claim6_content_amended dbSample ["git"]
    [("mcpServers", JValue.obj [("git", JValue.obj [("command", JValue.str "old")])])]
    [("git", JValue.obj [("command", JValue.str "old")])] "mcpServers" "git"
    rfl rfl (by decide)).2.2
  have hmem : ("git", ([("type", JValue.str "stdio"), ("command", JValue.str "npx"),
      ("args", JValue.arr [JValue.str "@modelcontextprotocol/server-git"])] : ServerConfig)) ∈
      flatServers dbSample :=
    List.mem_cons_of_mem _ (List.mem_cons_self _ _)
  exact h [("type", JValue.str "stdio"), ("command", JValue.str "npx"),
    ("args", JValue.arr [JValue.str "@modelcontextprotocol/server-git"])]
    hmem (by decide)

/-- C3: the deploy loop records one outcome per destination path, each path's
    outcome depends only on that path (the per-path try/except turns every
    exception into a recorded failure, so the top-level call is a total
    function returning the outcome list), and in the concrete three-destination
    scenario where only the second destination's existing file is unparsable,
    destinations one and three are still written and destination two is
    reported failed. -/
theorem claim3_deploy_isolation :
    (∀ (ns : List (String × ServerConfig)) (dests : List Dest),
      (deploy_config_to_app_locations ns dests).length = dests.length) ∧
    (∀ (ns : List (String × ServerConfig)) (dests : List Dest) (i : Nat),
      (deploy_config_to_app_locations ns dests)[i]? = (dests[i]?).map (deployOnePath ns)) ∧
    deploy_config_to_app_locations (buildNewServers dbSample ["git"])
      [Dest.jsonDest none false,
       Dest.jsonDest (some (Except.error "Expecting value: line 1 column 1 (char 0)")) false,
       Dest.jsonDest none false] =
      [DeployOutcome.wroteJson (JValue.obj [("mcpServers", JValue.obj
          [("git", JValue.obj [("command", JValue.str "npx"),
            ("args", JValue.arr [JValue.str "@modelcontextprotocol/server-git"])])])]),
       DeployOutcome.failed "Expecting value: line 1 column 1 (char 0)",
       DeployOutcome.wroteJson (JValue.obj [("mcpServers", JValue.obj
          [("git", JValue.obj [("command", JValue.str "npx"),
            ("args", JValue.arr [JValue.str "@modelcontextprotocol/server-git"])])])])] := by
  refine ⟨?_, ?_, rfl⟩
  · intro ns dests
    unfold deploy_config_to_app_locations
    exact List.length_map dests _
  · intro ns dests i
    unfold deploy_config_to_app_locations
    exact List.getElem?_map _ dests i

/-- C4, counterexample: the llm.py TOML parser discards the lines preceding
    the first block marker (its header branch is pass), so rendering with the
    empty selection returns a single newline and the source header content of
    the document is not preserved. -/
theorem claim4_empty_selection_counterexample :
    load_toml_template_llm "windows" ["# top-header", "", "[windows.mcp_servers.x]", "foo = 1"] =
      Except.ok ⟨"windows", ["x"], [("x", ["[windows.mcp_servers.x]", "foo = 1"])], []⟩ ∧
    (⟨"windows", ["x"], [("x", ["[windows.mcp_servers.x]", "foo = 1"])], []⟩ :
        ServerTemplate).render [] = Except.ok "\n" ∧
    ("\n" : String) ≠ "# top-header\n" :=
  ⟨rfl, rfl, by decide⟩

/-- C4 (amended): rendering with the empty selection yields an empty block
    region; the JSON path keeps every metadata key unchanged and maps the
    container key to an empty container; the llm.py TOML path discards the
    source header lines (the parse stores none), so its output is a single
    newline; the deploy-path TOML writer preserves exactly the content before
    the first mcp_servers table, normalized to a single trailing newline. -/
theorem claim4_empty_selection_amended :
    (∀ (metadata : List (String × JValue)) (ck : String) (order : List String)
        (blocks : List (String × JValue)),
      ∃ payload, render_json_llm metadata (some ck) order blocks [] = Except.ok payload ∧
        alookup ck payload = some (JValue.obj []) ∧
        ∀ k, k ≠ ck → alookup k payload = alookup k metadata) ∧
    (∀ (os : String) (ls : List String) (t : ServerTemplate),
      load_toml_template_llm os ls = Except.ok t →
        t.header_lines = [] ∧ t.render [] = Except.ok "\n") ∧
    (∀ old : Option (List String),
      write_toml_mcp_servers old [] = extract_toml_text_before_mcp old ++ "\n") := by
  refine ⟨?_, ?_, write_toml_empty_ns⟩
  · intro metadata ck order blocks
    refine ⟨setKey metadata ck (JValue.obj []), ?_, alookup_setKey_self _ _ _,
      fun k hk => alookup_setKey_ne _ _ hk⟩
    unfold render_json_llm
    dsimp only
    rw [filter_contains_nil]
    rfl
  · intro os ls t h
    have hh := load_llm_header_nil h
    exact ⟨hh, render_empty_selection t hh⟩

/-- C4 witness: the amended statement applied to concrete inputs: the parsed
    TOML template renders to a bare newline under the empty selection, and
    the deploy TOML writer keeps the pre-block prefix of a concrete file. -/
theorem claim4_empty_selection_amended_witness :
    (⟨"windows", ["x"], [("x", ["[windows.mcp_servers.x]", "foo = 1"])], []⟩ :
        ServerTemplate).render [] = Except.ok "\n" ∧
    write_toml_mcp_servers (some ["x = 1", "[mcp_servers.a]", "b = 2"]) [] = "x = 1\n" := by
  constructor
  · exact (claim4_empty_selection_amended.2.1 "windows"
      ["# top-header", "", "[windows.mcp_servers.x]", "foo = 1"]
      ⟨"windows", ["x"], [("x", ["[windows.mcp_servers.x]", "foo = 1"])], []⟩ rfl).2
  · have h := claim4_empty_selection_amended.2.2 (some ["x = 1", "[mcp_servers.a]", "b = 2"])
    rw [h]
    decide

/-- C10: the deploy-path TOML writer emits one block per entry of
    new_servers, in ascending lexicographic order of the server names,
    independently of the order the entries are supplied in and of everything
    in the destination file past its pre-block prefix; the output is a
    function of the name-to-config mapping and that prefix alone. -/
theorem claim10_toml_writer_deterministic_sorted (ns : List (String × ServerConfig))
    (old : Option (List String)) (hnd : (keysOf ns).Nodup) :
    ((tomlBlocksOf ns).map Prod.fst = sortedServerNames ns) ∧
    List.Sorted (fun a b => a ≤ b) (sortedServerNames ns) ∧
    (sortedServerNames ns).Perm (keysOf ns) ∧
    (∀ ns2, ns.Perm ns2 →
      write_toml_mcp_servers old ns = write_toml_mcp_servers old ns2) ∧
    (∀ old2, extract_toml_text_before_mcp old = extract_toml_text_before_mcp old2 →
      write_toml_mcp_servers old ns = write_toml_mcp_servers old2 ns) := by
  refine ⟨tomlBlocksOf_fst ns, sortedServerNames_sorted ns, sortedServerNames_perm ns, ?_, ?_⟩
  · intro ns2 hp
    exact write_toml_mcp_servers_eq_of_perm old hp hnd
  · intro old2 h
    unfold write_toml_mcp_servers
    rw [h]

/-- C10 witness: on the sample catalog with git selected the single emitted
    block name is git, and supplying the new_servers entries in swapped order
    leaves the written text unchanged. -/
theorem claim10_toml_writer_deterministic_sorted_witness :
    (tomlBlocksOf (buildNewServers dbSample ["git"])).map Prod.fst = ["git"] ∧
    write_toml_mcp_servers (some ["model = \"gpt\""])
        [("gitlab", [("command", JValue.str "npx")]), ("git", [("command", JValue.str "npx")])] =
      write_toml_mcp_servers (some ["model = \"gpt\""])
        [("git", [("command", JValue.str "npx")]), ("gitlab", [("command", JValue.str "npx")])] := by
  constructor
  · have h := (claim10_toml_writer_deterministic_sorted
      (buildNewServers dbSample ["git"]) none (by decide)).1
    rw [h]
    have hperm : (sortedServerNames (buildNewServers dbSample ["git"])).Perm ["git"] := by
      have hkeys : keysOf (buildNewServers dbSample ["git"]) = ["git"] := rfl
      exact hkeys ▸ sortedServerNames_perm _
    exact List.perm_singleton.mp hperm
  · have h := (claim10_toml_writer_deterministic_sorted
      [("gitlab", [("command", JValue.str "npx")]), ("git", [("command", JValue.str "npx")])]
      (some ["model = \"gpt\""]) (by decide)).2.2.2.1
    exact h _ (List.Perm.swap _ _ _)

